import Mathlib

/-!
go-api-connect, a shallow embedding.

The Go package `apiconnect` (helpers.go, filter.go, bearer.go, http.go,
wallet.go, request.go) translated function by function.

Conventions of the embedding:

* a Go `string` is a Lean `String`; `len(s)` is `String.utf8ByteSize`;
* a Go slice that may be `nil` is an `Option (List _)`: `none` is the nil
  slice, `some []` the empty slice made by `make(_, 0)`;
* a Go pointer that may be `nil` is an `Option`;
* a Go `int`, `int64` or `time.Duration` is an `Int` kept in range by
  `wrap64` wherever the source does arithmetic on it;
* a `time.Time` is the instant it denotes, an `Int` count of nanoseconds;
* a run-time panic (nil pointer dereference) is `Except.error` of a `Fault`;
* what the Go standard library does (`http.NewRequest`, the HTTP round
  trip, `json.Unmarshal`, the clock) is taken from an `Env`.
-/

namespace apiconnect

/-! ## helpers.go -/

namespace strings

/-- Go's `strings.Join(elems, sep)`: the first element, then `sep` and the
next element for each element that follows. -/
def Join (elems : List String) (sep : String) : String :=
  match elems with
  | [] => ""
  | a :: rest => rest.foldl (fun b s => b ++ sep ++ s) a

end strings

/-- Go's built-in `len` on a string: its length in bytes. -/
def len (s : String) : Int := (s.utf8ByteSize : Int)

/-- `Join` of helpers.go: keep the parts of at least `min` bytes, join them
with `delim`. -/
def Join (delim : String) (min : Int) (parts : List String) : String :=
  let filtered := parts.foldl
    (fun (filtered : List String) part =>
      if len part ≥ min then filtered ++ [part] else filtered) []
  strings.Join filtered delim

/-! ## filter.go -/

def Equals : String := "$eq"
def NotEquals : String := "$ne"
def In : String := "$in"

/-- The verb `%t` of `fmt.Sprintf`. -/
def fmtBool (b : Bool) : String := if b then "true" else "false"

/-- The verb `%d` of `fmt.Sprintf` on an unsigned integer. -/
def fmtUint (n : Nat) : String := Nat.repr n

structure FieldExistsFilter where
  Field : String
  Operator : String
  Value : Bool
deriving DecidableEq, Repr

structure BooleanFilter where
  Field : String
  Operator : String
  Value : Bool
deriving DecidableEq, Repr

/-- `Value` is a Go `uint64`. -/
structure NumberFilter where
  Field : String
  Operator : String
  Value : Nat
deriving DecidableEq, Repr

structure OneOfFilter where
  Field : String
  Operator : String
  Values : List String
deriving DecidableEq, Repr

structure StringFilter where
  Field : String
  Operator : String
  Value : String
deriving DecidableEq, Repr

/-- The interface `FieldFilter` with the five types that implement it. -/
inductive FieldFilter where
  | fieldExists (f : FieldExistsFilter)
  | boolean (b : BooleanFilter)
  | number (n : NumberFilter)
  | oneOf (o : OneOfFilter)
  | string (s : StringFilter)
deriving DecidableEq, Repr

def FieldExistsFilter.String (f : FieldExistsFilter) : String :=
  "\"" ++ f.Field ++ "\": \x7b\"" ++ f.Operator ++ "\": null\x7d"

def FieldExists (f : String) (v : Bool) : FieldFilter :=
  let o := if v then NotEquals else Equals
  .fieldExists { Field := f, Operator := o, Value := v }

def BooleanFilter.String (b : BooleanFilter) : String :=
  "\"" ++ b.Field ++ "\": \x7b\"" ++ b.Operator ++ "\": " ++ fmtBool b.Value ++ "\x7d"

def BoolFilter (f o : String) (v : Bool) : FieldFilter :=
  .boolean { Field := f, Operator := o, Value := v }

def NumberFilter.String (n : NumberFilter) : String :=
  "\"" ++ n.Field ++ "\": \x7b\"" ++ n.Operator ++ "\": " ++ fmtUint n.Value ++ "\x7d"

def NumFilter (f o : String) (v : Nat) : FieldFilter :=
  .number { Field := f, Operator := o, Value := v }

def OneOfFilter.String (o : OneOfFilter) : String :=
  let values := "[\"" ++ Join "\",\"" 1 o.Values ++ "\"]"
  "\"" ++ o.Field ++ "\": \x7b\"" ++ o.Operator ++ "\": " ++ values ++ "\x7d"

def IsOneOf (f : String) (v : List String) : FieldFilter :=
  .oneOf { Field := f, Operator := In, Values := v }

def StringFilter.String (s : StringFilter) : String :=
  "\"" ++ s.Field ++ "\": \x7b\"" ++ s.Operator ++ "\": \"" ++ s.Value ++ "\"\x7d"

def StrFilter (f o v : String) : FieldFilter :=
  .string { Field := f, Operator := o, Value := v }

/-- The method `String()` of the interface, dispatched on the dynamic type. -/
def FieldFilter.String : FieldFilter → String
  | .fieldExists f => f.String
  | .boolean b => b.String
  | .number n => n.String
  | .oneOf o => o.String
  | .string s => s.String

/-- `Value` is a slice: `none` is nil. -/
structure Filters where
  Value : Option (List FieldFilter)
deriving DecidableEq, Repr

def Filters.ToQueryString (f : Filters) : String :=
  match f.Value with
  | none => ""
  | some value =>
    let filters := value.foldl (fun (filters : List String) f => filters ++ [f.String]) []
    "\x7b" ++ Join "," 1 filters ++ "\x7d"

/-- `make([]FieldFilter, 0)` is a non-nil slice, and so is what `append`
makes of it. -/
def NewFilters (filters : List FieldFilter) : Filters :=
  let f : Filters := { Value := some [] }
  { f with Value := f.Value.map (fun value => value ++ filters) }

/-! ## The Go runtime and standard library, as far as the package uses them -/

/-- A run-time panic. -/
inductive Fault where
  | nilDereference
deriving DecidableEq, Repr

/-- A Go `error` value, by its message. -/
abbrev Error := String

deriving instance DecidableEq for Except

/-- A `[]byte`. -/
abbrev Bytes := List UInt8

/-- An instant (`time.Time`), in nanoseconds. -/
abbrev Time := Int

/-- A `time.Duration`: a signed 64-bit count of nanoseconds. -/
abbrev Duration := Int

/-- The two's complement value of `x` in 64 bits. -/
def wrap64 (x : Int) : Int := (x + 2 ^ 63) % 2 ^ 64 - 2 ^ 63

/-- `time.Second`. -/
def Second : Duration := 1000000000

/-- The verb `%d` of `fmt.Sprintf` on a signed integer. -/
def fmtInt (n : Int) : String := toString n

/-- A `url.Values` or an `http.Header`: each key with its values. -/
abbrev Values := List (String × List String)

/-- `Values.Set` and `Header.Set`: the key gets the one value. The header
names this package sets are in canonical form already. -/
def Values.Set (m : Values) (k v : String) : Values :=
  (k, [v]) :: m.filter (fun kv => kv.1 != k)

/-- `Values.Get` and `Header.Get`: the first value of the key, or "". -/
def Values.Get (m : Values) (k : String) : String :=
  match m.lookup k with
  | some (v :: _) => v
  | _ => ""

abbrev Header := Values

/-- The part of a `url.URL` the package touches. -/
structure URL where
  Raw : String
  RawQuery : String
deriving DecidableEq, Repr

/-- An `http.Request`. -/
structure Request where
  Method : String
  URL : URL
  Header : Header
  Body : Option Bytes
deriving DecidableEq, Repr

/-- An `http.Response`; `Body` and `ReadErr` are what `ioutil.ReadAll`
returns on its body. -/
structure Response where
  StatusCode : Int
  Header : Header
  Body : Bytes
  ReadErr : Option Error
deriving DecidableEq, Repr

/-! ## bearer.go (types) -/

/-- `ExpiresIn` is a Go `int`. -/
structure Bearer where
  ExpiresIn : Int
  ExpirationDate : Time
  Value : String
deriving DecidableEq, Repr

/-- What `json.Unmarshal(d, &bearer)` does to the pointer `bearer`, which
points to a zero `Bearer` before the call: it fails, or it sets the pointer
to nil (the JSON literal `null`), or it fills the fields of the `Bearer`. -/
inductive Unmarshal where
  | error (err : Error)
  | null
  | object (b : Bearer)
deriving DecidableEq, Repr

/-! ## credentials.go -/

structure Credentials where
  ClientID : String
  Secret : String
deriving DecidableEq, Repr

/-- The standard library and the world it talks to. -/
structure Env where
  /-- `http.NewRequest(method, url, body)` -/
  NewRequest : String → String → Option Bytes → Except Error Request
  /-- `(*url.URL).Query()`, of the raw query -/
  ParseQuery : String → Values
  /-- `url.Values.Encode()` -/
  Encode : Values → String
  /-- `http.DefaultClient.Do(req)` -/
  RoundTrip : Request → Except Error Response
  /-- `json.Unmarshal(d, &bearer)` -/
  UnmarshalBearer : Bytes → Unmarshal
  /-- `json.Marshal(c)` on credentials -/
  MarshalCredentials : Credentials → Bytes × Option Error
  /-- `json.Marshal(f)` on a `map[string]int`, as a string -/
  MarshalFields : List (String × Int) → Except Error String
  /-- The order in which a `range` loop visits the entries of a map -/
  Range : List (String × Int) → List (String × Int)
  /-- `time.Now()` as read by `IsExpired` -/
  NowIsExpired : Time
  /-- `time.Now()` as read by `NewBearerFromJSON` -/
  NowDecode : Time

def Credentials.ToJSON (env : Env) (c : Credentials) : Bytes × Option Error :=
  env.MarshalCredentials c

/-! ## bearer.go -/

/-- `time.Duration(60 * time.Second)`. -/
def renewBefore : Duration := 60 * Second

/-- `b.ExpirationDate.Before(time.Now().Add(renewBefore))`. -/
def Bearer.IsExpired (b : Bearer) (now : Time) : Bool :=
  decide (b.ExpirationDate < now + renewBefore)

/-- Returns `(bearer, nil)` as `.ok (.ok bearer)` and `(nil, err)` as
`.ok (.error err)`; panics where the source assigns to a field of a nil
`bearer`. -/
def NewBearerFromJSON (env : Env) (d : Bytes) : Except Fault (Except Error Bearer) :=
  match env.UnmarshalBearer d with
  | .error err => .ok (.error err)
  | .null => .error .nilDereference
  | .object bearer =>
    .ok (.ok { bearer with
      ExpirationDate := env.NowDecode + wrap64 (Second * bearer.ExpiresIn) })

/-! ## http.go -/

def requestTimeout : Int := 30

/-- `Req` and `Params` may be nil. -/
structure HTTPRequest where
  Method : String
  URL : String
  Payload : Option Bytes
  Query : List (String × String)
  Req : Option Request
  Params : Option Values
deriving DecidableEq, Repr

/-- What `Do` returns: body, headers, error, each of which may be nil. -/
structure DoResult where
  body : Option Bytes
  headers : Option Header
  err : Option Error
deriving DecidableEq, Repr

/-- `HTTPRequest.Do`. Besides what the source returns, the result holds the
receiver after the call and the request handed to the transport. -/
def HTTPRequest.Do (env : Env) (h : HTTPRequest) :
    Except Fault (HTTPRequest × Request × DoResult) :=
  match h.Req with
  | none => .error .nilDereference
  | some req =>
    let req : Request :=
      match h.Params with
      | some params =>
        if params.length > 0 then
          { req with URL := { req.URL with RawQuery := env.Encode params } }
        else req
      | none => req
    let h := { h with Req := some req }
    match env.RoundTrip req with
    | .error err => .ok (h, req, { body := none, headers := none, err := some err })
    | .ok resp =>
      if resp.StatusCode ≠ 200 ∧ resp.StatusCode ≠ 304 then
        .ok (h, req, { body := none, headers := none,
                       err := some ("API request failed with code " ++ fmtInt resp.StatusCode) })
      else if resp.StatusCode = 304 then
        .ok (h, req, { body := none, headers := some resp.Header, err := none })
      else
        .ok (h, req, { body := some resp.Body, headers := some resp.Header, err := resp.ReadErr })

def HTTPRequest.SetParam (h : HTTPRequest) (k v : String) : Except Fault HTTPRequest :=
  match h.Params with
  | none => .error .nilDereference
  | some params => .ok { h with Params := some (params.Set k v) }

def HTTPRequest.SetHeader (h : HTTPRequest) (k v : String) : Except Fault HTTPRequest :=
  match h.Req with
  | none => .error .nilDereference
  | some req => .ok { h with Req := some { req with Header := req.Header.Set k v } }

/-- `HTTPRequest.Initialize`: the receiver after the call and the error
returned. `h.Req` is set only when the request was built; `h.Req.URL` is
read either way. -/
def HTTPRequest.Initialize (env : Env) (h : HTTPRequest) :
    Except Fault (HTTPRequest × Option Error) :=
  let built := env.NewRequest h.Method h.URL h.Payload
  let err : Option Error :=
    match built with
    | .ok _ => none
    | .error e => some e
  let h : HTTPRequest :=
    match built with
    | .ok req => { h with Req := some req }
    | .error _ => h
  match h.Req with
  | none => .error .nilDereference
  | some req => .ok ({ h with Params := some (env.ParseQuery req.URL.RawQuery) }, err)

/-! ## wallet.go -/

structure Wallet where
  credentials : Credentials
  url : String
  bearer : Option Bearer
deriving DecidableEq, Repr

/-- `Wallet.NewBearer`: the wallet after the call and the requests handed
to the transport for the token endpoint. -/
def Wallet.NewBearer (env : Env) (w : Wallet) : Except Fault (Wallet × List Request) := do
  let (data, _) := w.credentials.ToJSON env
  let r : HTTPRequest :=
    { Method := "POST", URL := w.url, Payload := some data,
      Query := [], Req := none, Params := none }
  let (r, err) ← r.Initialize env
  if err.isSome then
    return (w, [])
  let r ← r.SetHeader "Content-Type" "application/json"
  let (_, sent, res) ← r.Do env
  if res.err.isSome then
    return (w, [sent])
  match ← NewBearerFromJSON env (res.body.getD []) with
  | .ok bearer => return ({ w with bearer := some bearer }, [sent])
  | .error _ => return (w, [sent])

/-- `Wallet.GetBearer`: the wallet after the call, the token returned and
the requests handed to the transport for the token endpoint. -/
def Wallet.GetBearer (env : Env) (w : Wallet) :
    Except Fault (Wallet × String × List Request) := do
  let renew : Bool :=
    match w.bearer with
    | none => true
    | some bearer => bearer.IsExpired env.NowIsExpired
  let (w, sent) ← if renew then w.NewBearer env else pure (w, [])
  match w.bearer with
  | some bearer => return (w, bearer.Value, sent)
  | none => return (w, "", sent)

def NewWallet (proto host client secret : String) (port : Int) : Wallet :=
  { url := proto ++ "://" ++ host ++ ":" ++ fmtInt port ++ "/token",
    credentials := { ClientID := client, Secret := secret },
    bearer := none }

/-! ## request.go -/

/-- Assignment `m[k] = v` on a map kept as the list of its entries. -/
def mapSet (m : List (String × Int)) (k : String) (v : Int) : List (String × Int) :=
  if m.any (fun kv => kv.1 == k) then
    m.map (fun kv => if kv.1 == k then (k, v) else kv)
  else m ++ [(k, v)]

/-- The verb `%b` of `fmt.Sprintf` on a signed integer. -/
def fmtBinary (n : Int) : String :=
  (if n < 0 then "-" else "") ++ String.mk (Nat.toDigits 2 n.natAbs)

/-- `strconv.FormatUint(n, 10)`. -/
def FormatUint (n : Nat) : String := Nat.repr n

/-- `strconv.FormatBool`. -/
def FormatBool (b : Bool) : String := if b then "true" else "false"

def fieldsToJSON (env : Env) (fields : List String) : String :=
  let f := fields.foldl (fun (f : List (String × Int)) field => mapSet f field 1) []
  match env.MarshalFields f with
  | .ok j => j
  | .error _ => ""

def buildUrl (proto host property collection : String) (port : Int) : String :=
  proto ++ "://" ++ host ++ ":" ++ fmtInt port ++ "/" ++ property ++ "/" ++ collection

/-- The type `Sort` (a reserved word here): `Value` is a `map[string]int8`,
kept as the list of its entries. -/
structure GoSort where
  Value : List (String × Int)
deriving DecidableEq, Repr

def GoSort.Asc (s : GoSort) (field : String) : GoSort :=
  { s with Value := mapSet s.Value field 1 }

def GoSort.Desc (s : GoSort) (field : String) : GoSort :=
  { s with Value := mapSet s.Value field (-1) }

def GoSort.String (env : Env) (s : GoSort) : String :=
  let vals := (env.Range s.Value).foldl
    (fun vals kv => vals ++ ["\"" ++ kv.1 ++ "\": " ++ fmtBinary kv.2]) []
  "\x7b" ++ Join "," 1 vals ++ "\x7d"

def NewSort : GoSort := { Value := [] }

/-- The embedded `*Sort` is the field `sort`; it, `Query` and `HTTPRequest`
are pointers, `Fields` is a slice; `ComposeLevel`, `Page` and `Limit` are
`uint64`. -/
structure Get where
  sort : Option GoSort
  Metadata : Bool
  Compose : Bool
  ComposeAll : Bool
  SkipCache : Bool
  ComposeLevel : Nat
  Collection : String
  Page : Nat
  Limit : Nat
  Fields : Option (List String)
  Query : Option Filters
  HTTPRequest : Option apiconnect.HTTPRequest
  ETag : String
deriving DecidableEq, Repr

/-- `Get.Initialize`: the receiver after the call and the error returned. -/
def Get.Initialize (env : Env) (g : Get) (proto host property bearer : String) (port : Int) :
    Except Fault (Get × Option Error) := do
  let h : apiconnect.HTTPRequest :=
    { Method := "GET", URL := buildUrl proto host property g.Collection port,
      Payload := none, Query := [], Req := none, Params := none }
  let h := if g.Metadata then { h with URL := h.URL ++ "/count" } else h
  let (h, err) ← h.Initialize env
  if err.isSome then
    return ({ g with HTTPRequest := some h }, err)
  let h ← h.SetHeader "If-None-Match" g.ETag
  let h ← h.SetHeader "Content-Type" "application/json"
  let h ← h.SetParam "page" (FormatUint g.Page)
  let h ← h.SetParam "count" (FormatUint g.Limit)
  let h ← h.SetHeader "Authorization" ("Bearer " ++ bearer)
  let h ← if g.SkipCache then h.SetParam "cache" (FormatBool false) else pure h
  let h ← match g.sort with
    | some sort => h.SetParam "sort" (sort.String env)
    | none => pure h
  let h ← if g.Compose then h.SetParam "compose" (FormatBool g.Compose) else pure h
  let h ← if g.ComposeLevel > 0 then h.SetParam "compose" (FormatUint g.ComposeLevel) else pure h
  let h ← if g.ComposeAll then h.SetParam "compose" "all" else pure h
  let h ← match g.Query with
    | some query => h.SetParam "filter" query.ToQueryString
    | none => pure h
  let h ← match g.Fields with
    | some fields => h.SetParam "fields" (fieldsToJSON env fields)
    | none => pure h
  return ({ g with HTTPRequest := some h }, none)

structure Post where
  ID : String
  Collection : String
  Body : Bytes
  HTTPRequest : Option apiconnect.HTTPRequest
deriving DecidableEq, Repr

/-- `Post.Initialize`: the receiver after the call and the error returned. -/
def Post.Initialize (env : Env) (p : Post) (proto host property bearer : String) (port : Int) :
    Except Fault (Post × Option Error) := do
  let h : apiconnect.HTTPRequest :=
    { Method := "POST", URL := buildUrl proto host property p.Collection port,
      Payload := some p.Body, Query := [], Req := none, Params := none }
  let h := if p.ID ≠ "" then { h with URL := h.URL ++ ("/" ++ p.ID) } else h
  let (h, err) ← h.Initialize env
  if err.isSome then
    return ({ p with HTTPRequest := some h }, err)
  let h ← h.SetHeader "Content-Type" "application/json"
  let h ← h.SetHeader "Authorization" ("Bearer " ++ bearer)
  return ({ p with HTTPRequest := some h }, none)

structure Put where
  ID : String
  Collection : String
  Body : Bytes
  HTTPRequest : Option apiconnect.HTTPRequest
deriving DecidableEq, Repr

/-- `Put.Initialize`: the receiver after the call and the error returned. -/
def Put.Initialize (env : Env) (p : Put) (proto host property bearer : String) (port : Int) :
    Except Fault (Put × Option Error) := do
  let h : apiconnect.HTTPRequest :=
    { Method := "PUT", URL := buildUrl proto host property p.Collection port,
      Payload := some p.Body, Query := [], Req := none, Params := none }
  let h := if p.ID ≠ "" then { h with URL := h.URL ++ ("/" ++ p.ID) } else h
  let (h, err) ← h.Initialize env
  if err.isSome then
    return ({ p with HTTPRequest := some h }, err)
  let h ← h.SetHeader "Content-Type" "application/json"
  let h ← h.SetHeader "Authorization" ("Bearer " ++ bearer)
  return ({ p with HTTPRequest := some h }, none)

structure Delete where
  ID : String
  Collection : String
  HTTPRequest : Option apiconnect.HTTPRequest
deriving DecidableEq, Repr

/-- `Delete.Initialize`: the receiver after the call and the error returned. -/
def Delete.Initialize (env : Env) (d : Delete) (proto host property bearer : String)
    (port : Int) : Except Fault (Delete × Option Error) := do
  let h : apiconnect.HTTPRequest :=
    { Method := "DELETE",
      URL := proto ++ "://" ++ host ++ ":" ++ fmtInt port ++ "/" ++ property ++ "/"
        ++ d.Collection ++ "/" ++ d.ID,
      Payload := none, Query := [], Req := none, Params := none }
  let (h, err) ← h.Initialize env
  if err.isSome then
    return ({ d with HTTPRequest := some h }, err)
  let h ← h.SetHeader "Content-Type" "application/json"
  let h ← h.SetHeader "Authorization" ("Bearer " ++ bearer)
  return ({ d with HTTPRequest := some h }, none)

/-- `Get.Do`: `g.HTTPRequest.Do(ctx)`; the receiver after the call, the
request handed to the transport and what is returned. -/
def Get.Do (env : Env) (g : Get) : Except Fault (Get × Request × DoResult) :=
  match g.HTTPRequest with
  | none => .error .nilDereference
  | some h =>
    match h.Do env with
    | .error f => .error f
    | .ok (h, sent, res) => .ok ({ g with HTTPRequest := some h }, sent, res)

/-- `Post.Do`: `p.HTTPRequest.Do(ctx)`. -/
def Post.Do (env : Env) (p : Post) : Except Fault (Post × Request × DoResult) :=
  match p.HTTPRequest with
  | none => .error .nilDereference
  | some h =>
    match h.Do env with
    | .error f => .error f
    | .ok (h, sent, res) => .ok ({ p with HTTPRequest := some h }, sent, res)

/-- `Put.Do`: `p.HTTPRequest.Do(ctx)`. -/
def Put.Do (env : Env) (p : Put) : Except Fault (Put × Request × DoResult) :=
  match p.HTTPRequest with
  | none => .error .nilDereference
  | some h =>
    match h.Do env with
    | .error f => .error f
    | .ok (h, sent, res) => .ok ({ p with HTTPRequest := some h }, sent, res)

/-- `Delete.Do`: `d.HTTPRequest.Do(ctx)`. -/
def Delete.Do (env : Env) (d : Delete) : Except Fault (Delete × Request × DoResult) :=
  match d.HTTPRequest with
  | none => .error .nilDereference
  | some h =>
    match h.Do env with
    | .error f => .error f
    | .ok (h, sent, res) => .ok ({ d with HTTPRequest := some h }, sent, res)

/-- The interface `Request` of request.go (the name `Request` stands for
`http.Request` here) with the four types that implement it. -/
inductive APIRequest where
  | get (g : Get)
  | post (p : Post)
  | put (p : Put)
  | delete (d : Delete)
deriving DecidableEq, Repr

/-- The method `Initialize` of the interface, dispatched on the dynamic
type. -/
def APIRequest.Initialize (env : Env) (r : APIRequest)
    (proto host property bearer : String) (port : Int) :
    Except Fault (APIRequest × Option Error) :=
  match r with
  | .get g => (g.Initialize env proto host property bearer port).map (fun x => (.get x.1, x.2))
  | .post p => (p.Initialize env proto host property bearer port).map (fun x => (.post x.1, x.2))
  | .put p => (p.Initialize env proto host property bearer port).map (fun x => (.put x.1, x.2))
  | .delete d =>
    (d.Initialize env proto host property bearer port).map (fun x => (.delete x.1, x.2))

/-- The method `Do` of the interface, dispatched on the dynamic type. -/
def APIRequest.Do (env : Env) (r : APIRequest) :
    Except Fault (APIRequest × Request × DoResult) :=
  match r with
  | .get g => (g.Do env).map (fun x => (.get x.1, x.2))
  | .post p => (p.Do env).map (fun x => (.post x.1, x.2))
  | .put p => (p.Do env).map (fun x => (.put x.1, x.2))
  | .delete d => (d.Do env).map (fun x => (.delete x.1, x.2))

/-! ## apiconnect.go -/

/-- `wallet` is a pointer. -/
structure Instance where
  Proto : String
  Hostname : String
  Port : Int
  Property : String
  wallet : Option Wallet
deriving DecidableEq, Repr

/-- The caller's target `res`, by what `json.Unmarshal(resp, &res)` returns
on each input: nil or an error. -/
abbrev Target := Bytes → Option Error

/-- What `Instance.Do` leaves and returns: the instance and the request
after the call, the three values returned, and the inputs `json.Unmarshal`
was run on. -/
structure InstanceDoResult where
  receiver : Instance
  request : APIRequest
  body : Option Bytes
  headers : Option Header
  err : Option Error
  decoded : List Bytes
deriving DecidableEq, Repr

/-- `Instance.Do`. -/
def Instance.Do (env : Env) (i : Instance) (r : APIRequest) (res : Target) :
    Except Fault InstanceDoResult :=
  match i.wallet with
  | none => .error .nilDereference
  | some wallet => do
    let (wallet, bearer, _) ← wallet.GetBearer env
    let i := { i with wallet := some wallet }
    let (r, err) ← r.Initialize env i.Proto i.Hostname i.Property bearer i.Port
    if err.isSome then
      return { receiver := i, request := r, body := none, headers := none, err := err,
               decoded := [] }
    let (r, _, out) ← r.Do env
    match out.err, out.body with
    | none, some resp =>
      return { receiver := i, request := r, body := some resp, headers := out.headers,
               err := res resp, decoded := [resp] }
    | _, _ =>
      return { receiver := i, request := r, body := none, headers := out.headers,
               err := out.err, decoded := [] }

/-- `Instance.GetBearer`: the call is handed to the wallet. -/
def Instance.GetBearer (env : Env) (i : Instance) :
    Except Fault (Instance × String × List Request) :=
  match i.wallet with
  | none => .error .nilDereference
  | some wallet =>
    (wallet.GetBearer env).map (fun x => ({ i with wallet := some x.1 }, x.2))

def New (proto host property client secret : String) (port : Int) : Instance :=
  { Proto := proto, Hostname := host, Port := port, Property := property,
    wallet := some (NewWallet proto host client secret port) }

/-! ## An environment for the examples -/

/-- The bytes of an ASCII string, `[]byte(s)`. -/
def bytesOf (s : String) : Bytes := s.data.map (fun c => UInt8.ofNat c.toNat)

/-- `http.NewRequest` on the URLs of the examples: a URL that starts with a
colon has no scheme and is rejected; the others are well formed and have no
query. -/
def demoNewRequest (method url : String) (body : Option Bytes) : Except Error Request :=
  match url.data with
  | ':' :: _ => .error ("parse \"" ++ url ++ "\": missing protocol scheme")
  | _ => .ok { Method := method, URL := { Raw := url, RawQuery := "" }, Header := [], Body := body }

/-- `json.Unmarshal` into a `*Bearer` on the bodies of the examples: the
literal `null`, the empty object, two token responses; of the other bodies
only the empty one is used, which is rejected. -/
def demoUnmarshal (d : Bytes) : Unmarshal :=
  if d = bytesOf "null" then .null
  else if d = bytesOf "\x7b\x7d" then
    .object { ExpiresIn := 0, ExpirationDate := 0, Value := "" }
  else if d = bytesOf "\x7b\"accessToken\":\"abc\",\"expiresIn\":120\x7d" then
    .object { ExpiresIn := 120, ExpirationDate := 0, Value := "abc" }
  else if d = bytesOf "\x7b\"accessToken\":\"abc\",\"expiresIn\":9223372037\x7d" then
    .object { ExpiresIn := 9223372037, ExpirationDate := 0, Value := "abc" }
  else .error "unexpected end of JSON input"

/-- An environment in which every round trip has the outcome `outcome`,
and the clock reads `now` in `IsExpired` and `fetched` in
`NewBearerFromJSON`. Query encoding and the JSON of a field map are
written without escaping and in the order given. -/
def demoEnv (outcome : Except Error Response) (now fetched : Time) : Env :=
  { NewRequest := demoNewRequest
    ParseQuery := fun _ => []
    Encode := fun vs => strings.Join (vs.map (fun kv => kv.1 ++ "=" ++ strings.Join kv.2 ",")) "&"
    RoundTrip := fun _ => outcome
    UnmarshalBearer := demoUnmarshal
    MarshalCredentials := fun c =>
      (bytesOf ("\x7b\"clientId\":\"" ++ c.ClientID ++ "\",\"secret\":\"" ++ c.Secret ++ "\"\x7d"),
        none)
    MarshalFields := fun f =>
      .ok ("\x7b" ++ strings.Join (f.map (fun kv => "\"" ++ kv.1 ++ "\":" ++ fmtInt kv.2)) "," ++ "\x7d")
    Range := fun m => m
    NowIsExpired := now
    NowDecode := fetched }

/-- A response with status 200 and the given body. -/
def okResponse (body : String) : Except Error Response :=
  .ok { StatusCode := 200, Header := [], Body := bytesOf body, ReadErr := none }

/-- A response with the given status and no body. -/
def statusResponse (code : Int) : Except Error Response :=
  .ok { StatusCode := code, Header := [], Body := [], ReadErr := none }

/-- A List request for the examples: page 1 of 10, collection `c`, no
option set. -/
def demoGet : Get :=
  { sort := none, Metadata := false, Compose := false, ComposeAll := false,
    SkipCache := false, ComposeLevel := 0, Collection := "c", Page := 1, Limit := 10,
    Fields := none, Query := none, HTTPRequest := none, ETag := "" }

/-- The transport request `demoNewRequest` builds for a method and a URL. -/
def demoRequest (method url : String) (body : Option Bytes) : Request :=
  { Method := method, URL := { Raw := url, RawQuery := "" }, Header := [], Body := body }

/-! ## Notions used to state the properties -/

/-- A (field, operator, value) triple, the arguments of `StrFilter`. -/
abbrev Triple := String × String × String

/-- The Filter Set fragments `StrFilter` builds from a list of triples. -/
def strFilters (l : List Triple) : List FieldFilter :=
  l.map (fun t => StrFilter t.1 t.2.1 t.2.2)

/-- The string holds no double quote. -/
def QuoteFree (s : String) : Prop := '"' ∉ s.data

instance (s : String) : Decidable (QuoteFree s) := by
  unfold QuoteFree; infer_instance

/-- None of the three strings of any triple holds a double quote. -/
def QuoteFreeTriples (l : List Triple) : Prop :=
  ∀ t ∈ l, QuoteFree t.1 ∧ QuoteFree t.2.1 ∧ QuoteFree t.2.2

instance (l : List Triple) : Decidable (QuoteFreeTriples l) := by
  unfold QuoteFreeTriples; infer_instance

/-- The characters of `StrFilter(f, o, v).String()` followed by `rest`. -/
def fragChars (t : Triple) (rest : List Char) : List Char :=
  '"' :: (t.1.data ++ '"' :: ':' :: ' ' :: '\x7b' :: '"' :: (t.2.1.data ++
    '"' :: ':' :: ' ' :: '"' :: (t.2.2.data ++ '"' :: '\x7d' :: rest)))

/-- The characters of the fragments of `l`, a comma before each. -/
def tailChars : List Triple → List Char
  | [] => []
  | t :: rest => ',' :: fragChars t (tailChars rest)

/-- The characters of the fragments of `l`, a comma between them. -/
def joinChars : List Triple → List Char
  | [] => []
  | t :: rest => fragChars t (tailChars rest)

/-- The token a wallet has cached: the value of its bearer, or "" when it
has none. -/
def cachedToken (w : Wallet) : String :=
  match w.bearer with
  | some bearer => bearer.Value
  | none => ""

/-- The request `NewBearer` hands to the transport once `http.NewRequest`
has built `req`: the content type is set, and the query is encoded anew when
the URL has one. -/
def tokenRequest (env : Env) (req : Request) : Request :=
  let params := env.ParseQuery req.URL.RawQuery
  let req := { req with Header := req.Header.Set "Content-Type" "application/json" }
  if params.length > 0 then
    { req with URL := { req.URL with RawQuery := env.Encode params } }
  else req

/-- The renewal fails on this outcome of the round trip: a transport error,
a status other than 200, a body that cannot be read, or a body that
`json.Unmarshal` rejects. -/
def RenewalFails (env : Env) : Except Error Response → Prop
  | .error _ => True
  | .ok resp =>
    resp.StatusCode ≠ 200 ∨ resp.ReadErr ≠ none ∨ ∃ e, env.UnmarshalBearer resp.Body = .error e

/-- A string between double quotes. -/
def quoted (s : String) : String := "\"" ++ s ++ "\""

/-- The request `Do` hands to the transport when `h.Req` is `req`: the query
is encoded anew when there are parameters. -/
def sentRequest (env : Env) (h : HTTPRequest) (req : Request) : Request :=
  match h.Params with
  | some params =>
    if params.length > 0 then
      { req with URL := { req.URL with RawQuery := env.Encode params } }
    else req
  | none => req

/-- The classification of the outcome of the round trip, in the words of the
specification: a transport error is returned as it is; status 200 gives the
body, the headers and the read error; status 304 gives no body, the headers
and no error; any other status gives no body, no headers and an error that
carries the code. -/
def classify : Except Error Response → DoResult
  | .error e => { body := none, headers := none, err := some e }
  | .ok resp =>
    if resp.StatusCode = 200 then
      { body := some resp.Body, headers := some resp.Header, err := resp.ReadErr }
    else if resp.StatusCode = 304 then
      { body := none, headers := some resp.Header, err := none }
    else
      { body := none, headers := none,
        err := some ("API request failed with code " ++ fmtInt resp.StatusCode) }

/-- The URL `Get.Initialize` builds: the collection path, with `/count`
after it when `Metadata` is set. -/
def getURL (g : Get) (proto host property : String) (port : Int) : String :=
  if g.Metadata then buildUrl proto host property g.Collection port ++ "/count"
  else buildUrl proto host property g.Collection port

/-- The headers of a List request: the three `SetHeader` calls of
`Get.Initialize` on the headers `http.NewRequest` gave. -/
def getHeader (header : Header) (etag bearer : String) : Header :=
  ((header.Set "If-None-Match" etag).Set "Content-Type" "application/json").Set
    "Authorization" ("Bearer " ++ bearer)

/-- The query parameters of a List request: the `SetParam` calls of
`Get.Initialize`, in its order, on the parameters of the URL. -/
def getParams (env : Env) (g : Get) (init : Values) : Values :=
  let p := (init.Set "page" (FormatUint g.Page)).Set "count" (FormatUint g.Limit)
  let p := if g.SkipCache then p.Set "cache" "false" else p
  let p := match g.sort with
    | some sort => p.Set "sort" (sort.String env)
    | none => p
  let p := if g.Compose then p.Set "compose" "true" else p
  let p := if g.ComposeLevel > 0 then p.Set "compose" (FormatUint g.ComposeLevel) else p
  let p := if g.ComposeAll then p.Set "compose" "all" else p
  let p := match g.Query with
    | some query => p.Set "filter" query.ToQueryString
    | none => p
  match g.Fields with
  | some fields => p.Set "fields" (fieldsToJSON env fields)
  | none => p

/-- The URL `Post.Initialize` and `Put.Initialize` build: the collection
path, with the ID after it when there is one. -/
def itemURL (id collection proto host property : String) (port : Int) : String :=
  if id ≠ "" then buildUrl proto host property collection port ++ ("/" ++ id)
  else buildUrl proto host property collection port

/-- The headers of a Create, Replace or Delete request: the two `SetHeader`
calls of `Initialize` on the headers `http.NewRequest` gave. -/
def itemHeader (header : Header) (bearer : String) : Header :=
  (header.Set "Content-Type" "application/json").Set "Authorization" ("Bearer " ++ bearer)

/-- The materialized request `h` has the method `method`, on the record and
on the transport request, and the headers `Authorization: Bearer token` and
`Content-Type: application/json`. -/
def Materialized (h : Option HTTPRequest) (method token : String) : Prop :=
  ∃ h' r, h = some h' ∧ h'.Method = method ∧ h'.Req = some r ∧ r.Method = method ∧
    r.Header.Get "Authorization" = "Bearer " ++ token ∧
    r.Header.Get "Content-Type" = "application/json"

/-- A call of `Asc` or of `Desc` on a Sort, with its field. -/
inductive SortCall where
  | asc (field : String)
  | desc (field : String)
deriving DecidableEq, Repr

def SortCall.field : SortCall → String
  | .asc field => field
  | .desc field => field

/-- The direction a call stores: 1 for `Asc`, −1 for `Desc`. -/
def SortCall.direction : SortCall → Int
  | .asc _ => 1
  | .desc _ => -1

def SortCall.apply (s : GoSort) : SortCall → GoSort
  | .asc field => s.Asc field
  | .desc field => s.Desc field

/-- The Sort obtained from `NewSort()` by the calls, in order. -/
def sortAfter (calls : List SortCall) : GoSort :=
  calls.foldl SortCall.apply NewSort

/-- The direction of the last of the calls on the field, if there is one. -/
def lastDirection (calls : List SortCall) (field : String) : Option Int :=
  calls.foldl (fun last call => if call.field = field then some call.direction else last) none

/-- The entry of a field in the serialized Sort: `"field": 1` for the
direction 1, `"field": -1` otherwise. -/
def sortEntry (kv : String × Int) : String :=
  "\"" ++ kv.1 ++ "\": " ++ (if kv.2 = 1 then "1" else "-1")

/-! ## Lemmas on the helpers -/

theorem foldl_append_singleton {α β : Type} (g : α → β) (l : List α) (init : List β) :
    l.foldl (fun acc x => acc ++ [g x]) init = init ++ l.map g := by
  induction l generalizing init with
  | nil => simp
  | cons x xs ih => simp [ih]

theorem foldl_keep {α : Type} (p : α → Prop) [DecidablePred p] (l : List α) (init : List α) :
    l.foldl (fun acc x => if p x then acc ++ [x] else acc) init
      = init ++ l.filter (fun x => decide (p x)) := by
  induction l generalizing init with
  | nil => simp
  | cons x xs ih =>
    by_cases hx : p x <;> simp [ih, hx]

theorem strings_Join_eq_intercalate (elems : List String) (sep : String) :
    strings.Join elems sep = String.intercalate sep elems := by
  cases elems with
  | nil => rfl
  | cons a rest =>
    show rest.foldl (fun b s => b ++ sep ++ s) a = String.intercalate.go a sep rest
    induction rest generalizing a with
    | nil => rfl
    | cons b bs ih => exact ih (a ++ sep ++ b)

theorem Join_eq (delim : String) (min : Int) (parts : List String) :
    Join delim min parts
      = strings.Join (parts.filter (fun part => decide (len part ≥ min))) delim := by
  unfold Join
  rw [foldl_keep (fun part => len part ≥ min)]
  simp

theorem len_append (a b : String) : len (a ++ b) = len a + len b := by
  cases a; cases b
  simp [len, String.utf8ByteSize, String.utf8ByteSize.go_eq, ← Nat.cast_add,
    ← String.utf8Len_append]
  rfl

theorem len_nonneg (a : String) : 0 ≤ len a := by
  simp [len]

theorem len_quote_append (a : String) : 1 ≤ len ("\"" ++ a) := by
  rw [len_append]
  have h := len_nonneg a
  have h1 : len "\"" = 1 := by decide
  omega

theorem FieldFilter_String_len (f : FieldFilter) : 1 ≤ len f.String := by
  cases f <;>
    simp only [FieldFilter.String, FieldExistsFilter.String, BooleanFilter.String,
      NumberFilter.String, OneOfFilter.String, StringFilter.String, String.append_assoc] <;>
    exact len_quote_append _

theorem ToQueryString_NewFilters (fs : List FieldFilter) :
    (NewFilters fs).ToQueryString
      = "\x7b" ++ strings.Join (fs.map FieldFilter.String) "," ++ "\x7d" := by
  simp only [NewFilters, Filters.ToQueryString, Option.map, List.nil_append]
  rw [foldl_append_singleton, Join_eq, List.nil_append, List.filter_eq_self.mpr]
  intro s hs
  obtain ⟨f, _, rfl⟩ := List.mem_map.mp hs
  simpa using FieldFilter_String_len f

/-! ## Filter Sets of string filters -/

theorem foldl_sep_data (sep : String) (rest : List String) (a : String) :
    (rest.foldl (fun b s => b ++ sep ++ s) a).data
      = a.data ++ (rest.map (fun s => sep.data ++ s.data)).flatten := by
  induction rest generalizing a with
  | nil => simp
  | cons b bs ih => simp [ih, List.append_assoc]

theorem StrFilter_String_data (t : Triple) (rest : List Char) :
    (StrFilter t.1 t.2.1 t.2.2).String.data ++ rest = fragChars t rest := by
  simp [StrFilter, FieldFilter.String, StringFilter.String, fragChars, List.append_assoc]

theorem tail_data (l : List Triple) :
    ((strFilters l).map FieldFilter.String |>.map (fun s => ",".data ++ s.data)).flatten
      = tailChars l := by
  induction l with
  | nil => rfl
  | cons t rest ih =>
    simp only [strFilters, List.map_cons, List.flatten_cons, tailChars] at ih ⊢
    rw [List.map_map] at ih ⊢
    rw [ih, List.append_assoc, StrFilter_String_data]
    rfl

theorem strings_Join_strFilters_data (l : List Triple) :
    (strings.Join ((strFilters l).map FieldFilter.String) ",").data = joinChars l := by
  cases l with
  | nil => rfl
  | cons t rest =>
    have h := tail_data rest
    simp only [strFilters, List.map_cons, strings.Join, joinChars] at h ⊢
    rw [foldl_sep_data, h, StrFilter_String_data]

theorem ToQueryString_strFilters_data (l : List Triple) :
    (NewFilters (strFilters l)).ToQueryString.data = '\x7b' :: (joinChars l ++ ['\x7d']) := by
  rw [ToQueryString_NewFilters]
  simp [strings_Join_strFilters_data]

theorem append_cons_cancel {α : Type} {a : α} {x₁ x₂ z₁ z₂ : List α}
    (h₁ : a ∉ x₁) (h₂ : a ∉ x₂) (h : x₁ ++ a :: z₁ = x₂ ++ a :: z₂) :
    x₁ = x₂ ∧ z₁ = z₂ := by
  induction x₁ generalizing x₂ with
  | nil =>
    cases x₂ with
    | nil => simpa using h
    | cons b bs =>
      simp only [List.nil_append, List.cons_append, List.cons.injEq] at h
      exact absurd (List.mem_cons_self _ _) (h.1 ▸ h₂)
  | cons c cs ih =>
    cases x₂ with
    | nil =>
      simp only [List.nil_append, List.cons_append, List.cons.injEq] at h
      exact absurd (List.mem_cons_self _ _) (h.1 ▸ h₁)
    | cons b bs =>
      simp only [List.cons_append, List.cons.injEq] at h
      have hc : a ∉ cs := fun hm => h₁ (List.mem_cons_of_mem _ hm)
      have hb : a ∉ bs := fun hm => h₂ (List.mem_cons_of_mem _ hm)
      obtain ⟨e₁, e₂⟩ := ih hc hb h.2
      exact ⟨by rw [h.1, e₁], e₂⟩

theorem fragChars_inj {t₁ t₂ : Triple} {r₁ r₂ : List Char}
    (h₁ : QuoteFree t₁.1 ∧ QuoteFree t₁.2.1 ∧ QuoteFree t₁.2.2)
    (h₂ : QuoteFree t₂.1 ∧ QuoteFree t₂.2.1 ∧ QuoteFree t₂.2.2)
    (h : fragChars t₁ r₁ = fragChars t₂ r₂) : t₁ = t₂ ∧ r₁ = r₂ := by
  obtain ⟨f₁, o₁, v₁⟩ := t₁
  obtain ⟨f₂, o₂, v₂⟩ := t₂
  simp only [fragChars, List.cons.injEq, true_and] at h
  obtain ⟨ef, h⟩ := append_cons_cancel h₁.1 h₂.1 h
  simp only [List.cons.injEq, true_and] at h
  obtain ⟨eo, h⟩ := append_cons_cancel h₁.2.1 h₂.2.1 h
  simp only [List.cons.injEq, true_and] at h
  obtain ⟨ev, h⟩ := append_cons_cancel h₁.2.2 h₂.2.2 h
  simp only [List.cons.injEq, true_and] at h
  refine ⟨?_, h⟩
  simp only [Prod.mk.injEq]
  exact ⟨String.ext ef, String.ext eo, String.ext ev⟩

theorem tailChars_inj (l₁ l₂ : List Triple) (h₁ : QuoteFreeTriples l₁)
    (h₂ : QuoteFreeTriples l₂) (h : tailChars l₁ = tailChars l₂) : l₁ = l₂ := by
  induction l₁ generalizing l₂ with
  | nil =>
    cases l₂ with
    | nil => rfl
    | cons t rest => simp [tailChars] at h
  | cons t rest ih =>
    cases l₂ with
    | nil => simp [tailChars] at h
    | cons t' rest' =>
      simp only [tailChars, List.cons.injEq, true_and] at h
      obtain ⟨et, er⟩ := fragChars_inj (h₁ t (List.mem_cons_self _ _))
        (h₂ t' (List.mem_cons_self _ _)) h
      rw [et, ih rest' (fun x hx => h₁ x (List.mem_cons_of_mem _ hx))
        (fun x hx => h₂ x (List.mem_cons_of_mem _ hx)) er]

theorem joinChars_inj (l₁ l₂ : List Triple) (h₁ : QuoteFreeTriples l₁)
    (h₂ : QuoteFreeTriples l₂) (h : joinChars l₁ = joinChars l₂) : l₁ = l₂ := by
  cases l₁ with
  | nil =>
    cases l₂ with
    | nil => rfl
    | cons t rest => simp [joinChars, fragChars] at h
  | cons t rest =>
    cases l₂ with
    | nil => simp [joinChars, fragChars] at h
    | cons t' rest' =>
      simp only [joinChars] at h
      obtain ⟨et, er⟩ := fragChars_inj (h₁ t (List.mem_cons_self _ _))
        (h₂ t' (List.mem_cons_self _ _)) h
      rw [et, tailChars_inj rest rest' (fun x hx => h₁ x (List.mem_cons_of_mem _ hx))
        (fun x hx => h₂ x (List.mem_cons_of_mem _ hx)) er]


/-- C1, as the code has it: the Filter Set `NewFilters()` returns for no
fragments holds a non-nil empty slice and serializes to `{}`, not to the
empty string; the empty string is what a Filter Set with a nil `Value`
serializes to. -/
theorem NewFilters_empty_ToQueryString :
    (NewFilters []).Value = some [] ∧
    (NewFilters []).ToQueryString = "\x7b\x7d" ∧
    ({ Value := none } : Filters).ToQueryString = "" := by
  decide

/-- C9, refuted: the one string filter whose field name is
`a": {"b": "c"},"d` serializes to the same text as the two filters
`("a","b","c")` and `("d","e","f")`. -/
theorem ToQueryString_strFilters_collision :
    ([("a", "b", "c"), ("d", "e", "f")] : List Triple)
        ≠ [("a\": \x7b\"b\": \"c\"\x7d,\"d", "e", "f")] ∧
    (NewFilters (strFilters [("a", "b", "c"), ("d", "e", "f")])).ToQueryString
      = (NewFilters (strFilters [("a\": \x7b\"b\": \"c\"\x7d,\"d", "e", "f")])).ToQueryString := by
  decide

/-- C9, amended: on lists of (field, operator, value) triples none of whose
strings holds a double quote, `ToQueryString` of the Filter Set built with
`StrFilter` is injective: different lists serialize to different texts. -/
theorem ToQueryString_strFilters_injective (l₁ l₂ : List Triple)
    (h₁ : QuoteFreeTriples l₁) (h₂ : QuoteFreeTriples l₂) (hne : l₁ ≠ l₂) :
    (NewFilters (strFilters l₁)).ToQueryString ≠ (NewFilters (strFilters l₂)).ToQueryString := by
  intro h
  have hd := congrArg String.data h
  rw [ToQueryString_strFilters_data, ToQueryString_strFilters_data] at hd
  simp only [List.cons.injEq, true_and, List.append_left_inj] at hd
  exact hne (joinChars_inj l₁ l₂ h₁ h₂ hd)

/-- Two lists of quote-free triples, one a prefix of the other, serialize
to different texts. -/
theorem ToQueryString_strFilters_injective_witness :
    (NewFilters (strFilters [("name", "$eq", "bob")])).ToQueryString
      ≠ (NewFilters (strFilters [("name", "$eq", "bob"), ("age", "$gt", "3")])).ToQueryString :=
  ToQueryString_strFilters_injective [("name", "$eq", "bob")]
    [("name", "$eq", "bob"), ("age", "$gt", "3")] (by decide) (by decide) (by decide)

/-- C10: for every list of fragments `f1..fn`, of any of the five kinds
and with any strings in them, `NewFilters(f1..fn).ToQueryString()` is `{`,
then `f1.String()`, ..., `fn.String()` in that order with a comma between
neighbours, then `}`: the length filter of `Join` drops none of them. -/
theorem ToQueryString_joins_every_fragment (fs : List FieldFilter) :
    (NewFilters fs).ToQueryString
      = "\x7b" ++ String.intercalate "," (fs.map FieldFilter.String) ++ "\x7d" := by
  rw [ToQueryString_NewFilters, strings_Join_eq_intercalate]

/-! ## Bearer tokens -/

theorem wrap64_of_fits {x : Int} (hlo : -2 ^ 63 ≤ x) (hhi : x < 2 ^ 63) : wrap64 x = x := by
  unfold wrap64
  norm_num at hlo hhi ⊢
  rw [Int.emod_eq_of_lt (by omega) (by omega)]
  omega

/-- C4, refuted at the boundary: with expiry E = 60s and now N = 0, so that
N + 60s = E, the bearer is not reported expired. -/
theorem IsExpired_boundary :
    Bearer.IsExpired { ExpiresIn := 60, ExpirationDate := 60 * Second, Value := "abc" } 0 = false ∧
    (0 : Time) + 60 * Second ≥ 60 * Second := by
  decide

/-- C4, amended: a bearer is usable (`IsExpired` is false) exactly when
N ≤ E − 60s, and `IsExpired` is true exactly when N + 60s > E; at
N + 60s = E the bearer is still usable. -/
theorem IsExpired_iff (b : Bearer) (now : Time) :
    (b.IsExpired now = false ↔ now ≤ b.ExpirationDate - 60 * Second) ∧
    (b.IsExpired now = true ↔ now + 60 * Second > b.ExpirationDate) := by
  have key : ∀ e n : Int, ¬ e < n + 60 * 1000000000 ↔ n ≤ e - 60 * 1000000000 := by
    intro e n
    constructor <;> intro h <;> omega
  constructor
  · rw [Bearer.IsExpired, decide_eq_false_iff_not]
    exact key _ _
  · rw [Bearer.IsExpired, decide_eq_true_eq]
    exact Iff.rfl

/-- C5: `IsExpired` at time N on a bearer that expires at E is the truth
value of E − N < 60s. -/
theorem IsExpired_eq_sub_lt (b : Bearer) (now : Time) :
    b.IsExpired now = decide (b.ExpirationDate - now < 60 * Second) := by
  simp only [Bearer.IsExpired, renewBefore, Second, decide_eq_decide]
  have key : ∀ e n : Int, e < n + 60 * 1000000000 ↔ e - n < 60 * 1000000000 := by
    intro e n
    constructor <;> intro h <;> omega
  exact key _ _

/-- C7, as the code has it: a response decoded with `expiresIn` =
9223372037, fetched at time 5s, gets the expiry 5s − 9223372036709551616ns
(the product `time.Second * 9223372037` wrapped to 64 bits), which is in the
past and not 5s + 9223372037s. -/
theorem NewBearerFromJSON_expiry_wraps :
    NewBearerFromJSON (demoEnv (statusResponse 200) 0 (5 * Second))
        (bytesOf "\x7b\"accessToken\":\"abc\",\"expiresIn\":9223372037\x7d")
      = .ok (.ok { ExpiresIn := 9223372037,
                   ExpirationDate := 5 * Second - 9223372036709551616,
                   Value := "abc" }) ∧
    5 * Second - 9223372036709551616 ≠ 5 * Second + 9223372037 * Second := by
  decide

/-- Where `time.Second * expiresIn` fits 64 bits, the bearer decoded at time
T expires at T + expiresIn seconds and keeps the decoded value. -/
theorem NewBearerFromJSON_expiry (env : Env) (d : Bytes) (b : Bearer)
    (hdec : env.UnmarshalBearer d = .object b)
    (hlo : -2 ^ 63 ≤ Second * b.ExpiresIn) (hhi : Second * b.ExpiresIn < 2 ^ 63) :
    NewBearerFromJSON env d
      = .ok (.ok { ExpiresIn := b.ExpiresIn,
                   ExpirationDate := env.NowDecode + b.ExpiresIn * Second,
                   Value := b.Value }) := by
  have hw : wrap64 (Second * b.ExpiresIn) = b.ExpiresIn * Second :=
    (wrap64_of_fits hlo hhi).trans (Int.mul_comm _ _)
  simp only [NewBearerFromJSON, hdec, hw]

/-! ## The wallet -/

theorem Initialize_of_built (env : Env) (h : HTTPRequest) (req : Request)
    (hbuilt : env.NewRequest h.Method h.URL h.Payload = .ok req) :
    h.Initialize env
      = .ok ({ h with Req := some req, Params := some (env.ParseQuery req.URL.RawQuery) },
             none) := by
  simp [HTTPRequest.Initialize, hbuilt]

theorem Initialize_of_rejected (env : Env) (h : HTTPRequest) (e : Error)
    (hreq : h.Req = none) (hrej : env.NewRequest h.Method h.URL h.Payload = .error e) :
    h.Initialize env = .error .nilDereference := by
  simp [HTTPRequest.Initialize, hrej, hreq]

theorem NewBearer_of_failure (env : Env) (w : Wallet) (req : Request)
    (hjson : ∃ e, env.UnmarshalBearer [] = .error e)
    (hbuilt : env.NewRequest "POST" w.url (some (w.credentials.ToJSON env).1) = .ok req)
    (hfail : RenewalFails env (env.RoundTrip (tokenRequest env req))) :
    w.NewBearer env = .ok (w, [tokenRequest env req]) := by
  obtain ⟨e, he⟩ := hjson
  simp only [Wallet.NewBearer, bind, Except.bind, pure, Except.pure]
  rw [Initialize_of_built env _ req hbuilt]
  simp only [HTTPRequest.SetHeader, HTTPRequest.Do, Option.isSome]
  by_cases hlen : List.length (env.ParseQuery req.URL.RawQuery) > 0
  all_goals
    simp only [tokenRequest, hlen, ↓reduceIte] at hfail ⊢
    generalize env.RoundTrip _ = out at hfail ⊢
    cases out with
    | error err => simp
    | ok resp =>
      simp only [RenewalFails] at hfail
      by_cases h200 : resp.StatusCode = 200
      · have h304 : resp.StatusCode ≠ 304 := by omega
        rcases hfail with h | h | ⟨e', h⟩
        · exact absurd h200 h
        · cases hr : resp.ReadErr with
          | none => exact absurd hr h
          | some err => simp [h200, hr]
        · cases hr : resp.ReadErr with
          | none => simp [h200, hr, NewBearerFromJSON, h]
          | some err => simp [h200, hr]
      · by_cases h304 : resp.StatusCode = 304
        · simp [h304, NewBearerFromJSON, he]
        · simp [h200, h304]

theorem NewBearer_of_rejected (env : Env) (w : Wallet) (e : Error)
    (hrej : env.NewRequest "POST" w.url (some (w.credentials.ToJSON env).1) = .error e) :
    w.NewBearer env = .error .nilDereference := by
  simp [Wallet.NewBearer, HTTPRequest.Initialize, hrej, bind, Except.bind]

theorem NewBearer_of_success (env : Env) (w : Wallet) (req : Request) (resp : Response)
    (b : Bearer)
    (hbuilt : env.NewRequest "POST" w.url (some (w.credentials.ToJSON env).1) = .ok req)
    (hresp : env.RoundTrip (tokenRequest env req) = .ok resp)
    (h200 : resp.StatusCode = 200) (hread : resp.ReadErr = none)
    (hdec : env.UnmarshalBearer resp.Body = .object b) :
    w.NewBearer env
      = .ok ({ w with bearer := some { b with
                ExpirationDate := env.NowDecode + wrap64 (Second * b.ExpiresIn) } },
             [tokenRequest env req]) := by
  simp only [Wallet.NewBearer, bind, Except.bind, pure, Except.pure]
  rw [Initialize_of_built env _ req hbuilt]
  simp only [HTTPRequest.SetHeader, HTTPRequest.Do, Option.isSome]
  by_cases hlen : List.length (env.ParseQuery req.URL.RawQuery) > 0
  all_goals
    simp only [tokenRequest, hlen, ↓reduceIte] at hresp ⊢
    rw [hresp]
    simp [h200, hread, NewBearerFromJSON, hdec]

theorem NewBearer_cases (env : Env) (w w' : Wallet) (sent : List Request)
    (h : w.NewBearer env = .ok (w', sent)) :
    w' = w ∨ ∃ b, w' = { w with bearer := some b } := by
  cases hbuilt : env.NewRequest "POST" w.url (some (w.credentials.ToJSON env).1) with
  | error e => rw [NewBearer_of_rejected env w e hbuilt] at h; cases h
  | ok req =>
    simp only [Wallet.NewBearer, bind, Except.bind, pure, Except.pure] at h
    rw [Initialize_of_built env _ req hbuilt] at h
    simp only [HTTPRequest.SetHeader, HTTPRequest.Do, Option.isSome] at h
    by_cases hlen : List.length (env.ParseQuery req.URL.RawQuery) > 0
    all_goals
      simp only [hlen, ↓reduceIte] at h
      generalize env.RoundTrip _ = out at h
      cases out with
      | error err =>
        simp at h
        exact Or.inl h.1.symm
      | ok resp =>
        by_cases h200 : resp.StatusCode = 200
        · cases hr : resp.ReadErr with
          | some err =>
            simp [h200, hr] at h
            exact Or.inl h.1.symm
          | none =>
            cases hd : env.UnmarshalBearer resp.Body with
            | error e =>
              simp [h200, hr, NewBearerFromJSON, hd] at h
              exact Or.inl h.1.symm
            | null => simp [h200, hr, NewBearerFromJSON, hd] at h
            | object b =>
              simp [h200, hr, NewBearerFromJSON, hd] at h
              exact Or.inr ⟨_, h.1.symm⟩
        · by_cases h304 : resp.StatusCode = 304
          · cases hd : env.UnmarshalBearer [] with
            | error e =>
              simp [h304, NewBearerFromJSON, hd] at h
              exact Or.inl h.1.symm
            | null => simp [h304, NewBearerFromJSON, hd] at h
            | object b =>
              simp [h304, NewBearerFromJSON, hd] at h
              exact Or.inr ⟨_, h.1.symm⟩
          · simp [h200, h304] at h
            exact Or.inl h.1.symm

theorem GetBearer_of_fresh (env : Env) (w : Wallet) (b : Bearer) (hb : w.bearer = some b)
    (hfresh : b.IsExpired env.NowIsExpired = false) :
    w.GetBearer env = .ok (w, b.Value, []) := by
  simp [Wallet.GetBearer, hb, hfresh, bind, Except.bind, pure, Except.pure]

theorem GetBearer_of_renewal (env : Env) (w : Wallet)
    (hrenew : w.bearer = none ∨ ∃ b, w.bearer = some b ∧ b.IsExpired env.NowIsExpired = true) :
    w.GetBearer env
      = (w.NewBearer env).bind (fun r => .ok (r.1, cachedToken r.1, r.2)) := by
  have hflag : (match w.bearer with
      | none => true
      | some bearer => bearer.IsExpired env.NowIsExpired) = true := by
    rcases hrenew with h | ⟨b, h, hexp⟩
    · rw [h]
    · rw [h]; exact hexp
  simp only [Wallet.GetBearer, hflag, bind, Except.bind, pure, Except.pure, ↓reduceIte]
  cases w.NewBearer env with
  | error e => rfl
  | ok r =>
    obtain ⟨w', sent⟩ := r
    simp only [cachedToken]
    cases w'.bearer <;> rfl

theorem GetBearer_cases (env : Env) (w w' : Wallet) (tok : String) (sent : List Request)
    (h : w.GetBearer env = .ok (w', tok, sent)) :
    tok = cachedToken w' ∧ (w' = w ∨ ∃ b, w' = { w with bearer := some b }) := by
  have renewed : w.GetBearer env
        = (w.NewBearer env).bind (fun r => .ok (r.1, cachedToken r.1, r.2)) →
      tok = cachedToken w' ∧ (w' = w ∨ ∃ b, w' = { w with bearer := some b }) := by
    intro hg
    rw [hg] at h
    cases hn : w.NewBearer env with
    | error f => rw [hn] at h; cases h
    | ok r =>
      obtain ⟨w₁, s₁⟩ := r
      rw [hn] at h
      simp only [Except.bind, Except.ok.injEq, Prod.mk.injEq] at h
      obtain ⟨hw, ht, _⟩ := h
      subst hw
      exact ⟨ht.symm, NewBearer_cases env w w₁ s₁ hn⟩
  cases hb : w.bearer with
  | none => exact renewed (GetBearer_of_renewal env w (Or.inl hb))
  | some b =>
    cases hexp : b.IsExpired env.NowIsExpired with
    | true => exact renewed (GetBearer_of_renewal env w (Or.inr ⟨b, hb, hexp⟩))
    | false =>
      rw [GetBearer_of_fresh env w b hb hexp] at h
      simp only [Except.ok.injEq, Prod.mk.injEq] at h
      obtain ⟨hw, ht, _⟩ := h
      subst hw
      exact ⟨by rw [← ht, cachedToken, hb], Or.inl rfl⟩

/-- C2, as the code has it: when `http.NewRequest` rejects the method or
the URL, `HTTPRequest.Initialize` on a request whose `Req` is still unset
reads `h.Req.URL` of the nil `Req` and panics; no error is returned. -/
theorem Initialize_faults_on_construction_error (env : Env) (h : HTTPRequest) (e : Error)
    (hreq : h.Req = none) (hrej : env.NewRequest h.Method h.URL h.Payload = .error e) :
    h.Initialize env = .error .nilDereference :=
  Initialize_of_rejected env h e hreq hrej

/-- The request `Get.Initialize` builds for an empty protocol has the URL
`://host:80/property/collection`, which has no scheme: `Initialize` panics. -/
theorem Initialize_faults_on_construction_error_witness :
    HTTPRequest.Initialize (demoEnv (statusResponse 200) 0 0)
        { Method := "GET", URL := "://host:80/property/collection", Payload := none,
          Query := [], Req := none, Params := none }
      = .error .nilDereference :=
  Initialize_faults_on_construction_error _ _
    "parse \"://host:80/property/collection\": missing protocol scheme" rfl rfl

/-- The panic of `HTTPRequest.Initialize` reaches the caller of
`Get.Initialize`. -/
theorem Get_Initialize_faults (env : Env) (g : Get) (proto host property bearer : String)
    (port : Int) (e : Error)
    (hrej : env.NewRequest "GET"
      (if g.Metadata then buildUrl proto host property g.Collection port ++ "/count"
        else buildUrl proto host property g.Collection port) none = .error e) :
    g.Initialize env proto host property bearer port = .error .nilDereference := by
  unfold Get.Initialize
  cases hm : g.Metadata <;> simp only [hm, Bool.false_eq_true, ↓reduceIte] at hrej ⊢ <;>
    rw [Initialize_of_rejected env _ e rfl hrej] <;> rfl

/-- The panic of `HTTPRequest.Initialize` reaches the caller of
`Post.Initialize`. -/
theorem Post_Initialize_faults (env : Env) (p : Post) (proto host property bearer : String)
    (port : Int) (e : Error)
    (hrej : env.NewRequest "POST"
      (if p.ID ≠ "" then buildUrl proto host property p.Collection port ++ ("/" ++ p.ID)
        else buildUrl proto host property p.Collection port) (some p.Body) = .error e) :
    p.Initialize env proto host property bearer port = .error .nilDereference := by
  unfold Post.Initialize
  by_cases hid : p.ID = "" <;> simp only [hid, ne_eq, not_true_eq_false, not_false_eq_true,
      ↓reduceIte] at hrej ⊢ <;>
    rw [Initialize_of_rejected env _ e rfl hrej] <;> rfl

/-- The panic of `HTTPRequest.Initialize` reaches the caller of
`Put.Initialize`. -/
theorem Put_Initialize_faults (env : Env) (p : Put) (proto host property bearer : String)
    (port : Int) (e : Error)
    (hrej : env.NewRequest "PUT"
      (if p.ID ≠ "" then buildUrl proto host property p.Collection port ++ ("/" ++ p.ID)
        else buildUrl proto host property p.Collection port) (some p.Body) = .error e) :
    p.Initialize env proto host property bearer port = .error .nilDereference := by
  unfold Put.Initialize
  by_cases hid : p.ID = "" <;> simp only [hid, ne_eq, not_true_eq_false, not_false_eq_true,
      ↓reduceIte] at hrej ⊢ <;>
    rw [Initialize_of_rejected env _ e rfl hrej] <;> rfl

/-- The panic of `HTTPRequest.Initialize` reaches the caller of
`Delete.Initialize`. -/
theorem Delete_Initialize_faults (env : Env) (d : Delete) (proto host property bearer : String)
    (port : Int) (e : Error)
    (hrej : env.NewRequest "DELETE"
      (proto ++ "://" ++ host ++ ":" ++ fmtInt port ++ "/" ++ property ++ "/"
        ++ d.Collection ++ "/" ++ d.ID) none = .error e) :
    d.Initialize env proto host property bearer port = .error .nilDereference := by
  unfold Delete.Initialize
  dsimp only
  rw [Initialize_of_rejected env _ e rfl hrej]
  rfl

/-- C3: whatever the wallet holds (no token, a fresh one, a stale one),
when the renewal fails (transport error, a status other than 200, an
unreadable body, a body that does not decode) `GetBearer` leaves the wallet
as it was and returns the value of the bearer cached before the call, or ""
when there was none. The wallet's URL is one `http.NewRequest` accepts, and
`json.Unmarshal` rejects the empty input, which is what a 304 leaves to
decode. -/
theorem GetBearer_renewal_failure_keeps_cache (env : Env) (w : Wallet) (req : Request)
    (hjson : ∃ e, env.UnmarshalBearer [] = .error e)
    (hbuilt : env.NewRequest "POST" w.url (some (w.credentials.ToJSON env).1) = .ok req)
    (hfail : RenewalFails env (env.RoundTrip (tokenRequest env req))) :
    ∃ sent, (sent = [] ∨ sent = [tokenRequest env req]) ∧
      w.GetBearer env = .ok (w, cachedToken w, sent) := by
  have renewed : w.GetBearer env
        = (w.NewBearer env).bind (fun r => .ok (r.1, cachedToken r.1, r.2)) →
      w.GetBearer env = .ok (w, cachedToken w, [tokenRequest env req]) := by
    intro hg
    rw [hg, NewBearer_of_failure env w req hjson hbuilt hfail]
    rfl
  cases hb : w.bearer with
  | none =>
    exact ⟨_, Or.inr rfl, renewed (GetBearer_of_renewal env w (Or.inl hb))⟩
  | some b =>
    cases hexp : b.IsExpired env.NowIsExpired with
    | true =>
      exact ⟨_, Or.inr rfl, renewed (GetBearer_of_renewal env w (Or.inr ⟨b, hb, hexp⟩))⟩
    | false =>
      refine ⟨[], Or.inl rfl, ?_⟩
      rw [GetBearer_of_fresh env w b hb hexp, cachedToken, hb]

/-- A wallet with a stale bearer `old`, at a token endpoint that answers
500: the wallet is unchanged and `old` is returned. -/
theorem GetBearer_renewal_failure_keeps_cache_witness :
    ∃ sent,
      (sent = [] ∨ sent = [tokenRequest (demoEnv (statusResponse 500) (200 * Second) 0)
        { Method := "POST", URL := { Raw := "http://host:80/token", RawQuery := "" },
          Header := [], Body := some (bytesOf "\x7b\"clientId\":\"id\",\"secret\":\"s\"\x7d") }]) ∧
      Wallet.GetBearer (demoEnv (statusResponse 500) (200 * Second) 0)
          { credentials := { ClientID := "id", Secret := "s" }, url := "http://host:80/token",
            bearer := some { ExpiresIn := 120, ExpirationDate := 120 * Second, Value := "old" } }
        = .ok ({ credentials := { ClientID := "id", Secret := "s" },
                 url := "http://host:80/token",
                 bearer := some { ExpiresIn := 120, ExpirationDate := 120 * Second,
                                  Value := "old" } },
               cachedToken
                 { credentials := { ClientID := "id", Secret := "s" },
                   url := "http://host:80/token",
                   bearer := some { ExpiresIn := 120, ExpirationDate := 120 * Second,
                                    Value := "old" } },
               sent) :=
  GetBearer_renewal_failure_keeps_cache (demoEnv (statusResponse 500) (200 * Second) 0)
    { credentials := { ClientID := "id", Secret := "s" }, url := "http://host:80/token",
      bearer := some { ExpiresIn := 120, ExpirationDate := 120 * Second, Value := "old" } }
    { Method := "POST", URL := { Raw := "http://host:80/token", RawQuery := "" },
      Header := [], Body := some (bytesOf "\x7b\"clientId\":\"id\",\"secret\":\"s\"\x7d") }
    ⟨"unexpected end of JSON input", rfl⟩ rfl (Or.inl (by decide))

/-- C6, as the code has it: a renewal at time 0 that succeeds with
`expiresIn` = 9223372037 caches the expiry −9223372036709551616ns, so the
next `GetBearer`, at time 1s and long before 0 + 9223372037s − 60s, finds
the token expired and sends a request to the token endpoint again. -/
theorem GetBearer_renews_early_on_overflow :
    (Wallet.GetBearer
        (demoEnv (okResponse "\x7b\"accessToken\":\"abc\",\"expiresIn\":9223372037\x7d") 0 0)
        (NewWallet "http" "host" "id" "s" 80)).toOption.map (fun r => (r.1.bearer, r.2.1))
      = some (some { ExpiresIn := 9223372037, ExpirationDate := -9223372036709551616,
                     Value := "abc" }, "abc") ∧
    1 * Second < 0 + 9223372037 * Second - 60 * Second ∧
    (Wallet.GetBearer
        (demoEnv (okResponse "\x7b\"accessToken\":\"abc\",\"expiresIn\":9223372037\x7d")
          (1 * Second) (1 * Second))
        { NewWallet "http" "host" "id" "s" 80 with
          bearer := some { ExpiresIn := 9223372037, ExpirationDate := -9223372036709551616,
                           Value := "abc" } }).toOption.map (fun r => r.2.2.length)
      = some 1 := by
  decide

/-- Where `time.Second * n` fits 64 bits, a wallet whose bearer was decoded
at time T from `expiresIn` = n answers from the cache, with no request and
no change, at every time N < T + n·1s − 60s, and hands the call to
`NewBearer` at every time N > T + n·1s − 60s. -/
theorem GetBearer_freshness (env : Env) (w : Wallet) (T : Time) (n : Int) (v : String)
    (hlo : -2 ^ 63 ≤ Second * n) (hhi : Second * n < 2 ^ 63)
    (hb : w.bearer = some { ExpiresIn := n, ExpirationDate := T + wrap64 (Second * n),
                            Value := v }) :
    (env.NowIsExpired < T + n * Second - 60 * Second → w.GetBearer env = .ok (w, v, [])) ∧
    (env.NowIsExpired > T + n * Second - 60 * Second →
      w.GetBearer env = (w.NewBearer env).bind (fun r => .ok (r.1, cachedToken r.1, r.2))) := by
  have hw : wrap64 (Second * n) = n * Second :=
    (wrap64_of_fits hlo hhi).trans (Int.mul_comm _ _)
  rw [hw] at hb
  have key : ∀ e now : Int, (now < e - 60 * 1000000000 → ¬ e < now + 60 * 1000000000) ∧
      (now > e - 60 * 1000000000 → e < now + 60 * 1000000000) := by
    intro e now
    constructor <;> intro h <;> omega
  constructor
  · intro hN
    refine GetBearer_of_fresh env w _ hb ?_
    rw [Bearer.IsExpired, decide_eq_false_iff_not]
    exact (key _ _).1 hN
  · intro hN
    refine GetBearer_of_renewal env w (Or.inr ⟨_, hb, ?_⟩)
    rw [Bearer.IsExpired, decide_eq_true_eq]
    exact (key _ _).2 hN

/-- C8, refuted: on a wallet with no bearer, a 200 response with the body
`{}` decodes, the renewal succeeds and caches a bearer, and `GetBearer`
returns "". -/
theorem GetBearer_empty_after_successful_renewal :
    (NewWallet "http" "host" "id" "s" 80).bearer = none ∧
    (Wallet.GetBearer (demoEnv (okResponse "\x7b\x7d") 0 (5 * Second))
        (NewWallet "http" "host" "id" "s" 80)).toOption.map (fun r => (r.1.bearer, r.2.1))
      = some (some { ExpiresIn := 0, ExpirationDate := 5 * Second, Value := "" }, "") := by
  decide

/-- C8, amended: if `GetBearer` returns "" then either the wallet held no
bearer before the call and the renewal stored none (the wallet is
unchanged), or the bearer cached after the call has the empty string as its
value. -/
theorem GetBearer_empty_only_if (env : Env) (w w' : Wallet) (sent : List Request)
    (h : w.GetBearer env = .ok (w', "", sent)) :
    (w.bearer = none ∧ w' = w) ∨ ∃ b, w'.bearer = some b ∧ b.Value = "" := by
  obtain ⟨htok, hw⟩ := GetBearer_cases env w w' "" sent h
  cases hb : w'.bearer with
  | some b =>
    right
    refine ⟨b, rfl, ?_⟩
    rw [cachedToken, hb] at htok
    exact htok.symm
  | none =>
    left
    rcases hw with hw | ⟨b, hw⟩
    · exact ⟨by rw [← hw]; exact hb, hw⟩
    · rw [hw] at hb
      cases hb

/-- A wallet with no bearer, at a token endpoint that answers 500:
`GetBearer` returns "" and the wallet is unchanged. -/
theorem GetBearer_empty_only_if_witness :
    ((NewWallet "http" "host" "id" "s" 80).bearer = none ∧
        NewWallet "http" "host" "id" "s" 80 = NewWallet "http" "host" "id" "s" 80) ∨
      ∃ b, (NewWallet "http" "host" "id" "s" 80).bearer = some b ∧ b.Value = "" :=
  GetBearer_empty_only_if (demoEnv (statusResponse 500) 0 0)
    (NewWallet "http" "host" "id" "s" 80) (NewWallet "http" "host" "id" "s" 80)
    [tokenRequest (demoEnv (statusResponse 500) 0 0)
      { Method := "POST", URL := { Raw := "http://host:80/token", RawQuery := "" },
        Header := [], Body := some (bytesOf "\x7b\"clientId\":\"id\",\"secret\":\"s\"\x7d") }]
    (by decide)

/-! ## Membership and string filters -/

theorem len_pos_iff (s : String) : len s ≥ 1 ↔ s ≠ "" := by
  cases s with
  | mk data =>
    cases data with
    | nil => simp [len, String.utf8ByteSize, String.utf8ByteSize.go]
    | cons c cs =>
      have hc := Char.utf8Size_pos c
      have hne : (String.mk (c :: cs)) ≠ "" := by
        intro h
        have := congrArg String.data h
        simp at this
      simp only [len, String.utf8ByteSize, String.utf8ByteSize.go, ge_iff_le, ne_eq, hne,
        not_false_eq_true, iff_true]
      omega

theorem intercalate_go_quoted (acc : String) (rest : List String) :
    "\"" ++ String.intercalate.go acc "\",\"" rest ++ "\""
      = String.intercalate.go (quoted acc) "," (rest.map quoted) := by
  induction rest generalizing acc with
  | nil => rfl
  | cons b bs ih =>
    simp only [String.intercalate.go, List.map_cons]
    rw [ih]
    congr 1
    simp [quoted, String.ext_iff, List.append_assoc]

theorem intercalate_quoted (l : List String) (hl : l ≠ []) :
    "\"" ++ String.intercalate "\",\"" l ++ "\"" = String.intercalate "," (l.map quoted) := by
  cases l with
  | nil => exact absurd rfl hl
  | cons a rest => exact intercalate_go_quoted a rest

/-- C11, refuted: an empty string among the values is left out
(`["a","b"]` for the values a, "", b), and the empty list of values prints
as `[""]`, one quoted entry for no element. -/
theorem IsOneOf_String_drops_empty :
    (IsOneOf "tag" ["a", "", "b"]).String = "\"tag\": \x7b\"$in\": [\"a\",\"b\"]\x7d" ∧
    (IsOneOf "tag" ["a", "", "b"]).String ≠ "\"tag\": \x7b\"$in\": [\"a\",\"\",\"b\"]\x7d" ∧
    (IsOneOf "tag" []).String = "\"tag\": \x7b\"$in\": [\"\"]\x7d" := by
  decide

/-- C11, amended: for every field name `f` and every list of values with at
least one value that is not the empty string, `IsOneOf(f, vs).String()` is
`"f": {"$in": [L]}` where `L` is the values of `vs` that are not empty, each
between double quotes, joined by commas in order; the operator is `$in`. -/
theorem IsOneOf_String (f : String) (vs : List String) (hvs : ∃ v ∈ vs, v ≠ "") :
    (IsOneOf f vs).String
      = "\"" ++ f ++ "\": \x7b\"$in\": ["
          ++ String.intercalate "," ((vs.filter (fun v => decide (v ≠ ""))).map quoted)
          ++ "]\x7d" := by
  have hne : vs.filter (fun v => decide (v ≠ "")) ≠ [] := by
    obtain ⟨v, hv, hv'⟩ := hvs
    intro h
    have hmem : v ∈ vs.filter (fun v => decide (v ≠ "")) :=
      List.mem_filter.mpr ⟨hv, by simpa using hv'⟩
    rw [h] at hmem
    cases hmem
  have hfilter : vs.filter (fun part => decide (len part ≥ 1))
      = vs.filter (fun v => decide (v ≠ "")) := by
    apply List.filter_congr
    intro x _
    simp only [len_pos_iff]
  simp only [IsOneOf, FieldFilter.String, OneOfFilter.String, In]
  rw [Join_eq, hfilter, strings_Join_eq_intercalate, ← intercalate_quoted _ hne]
  simp [String.ext_iff, List.append_assoc]

/-- The values tag a, "", b print as the two entries `"a","b"`. -/
theorem IsOneOf_String_witness :
    (IsOneOf "tag" ["a", "", "b"]).String
      = "\"" ++ "tag" ++ "\": \x7b\"$in\": ["
          ++ String.intercalate "," ((["a", "", "b"].filter (fun v => decide (v ≠ ""))).map quoted)
          ++ "]\x7d" :=
  IsOneOf_String "tag" ["a", "", "b"] ⟨"a", by decide, by decide⟩

/-- C12: `StrFilter(field, op, value).String()` is `"`, field, `": {"`, op,
`": "`, value, `"}` put together, the three strings as they are; for name,
$eq, bob it is `"name": {"$eq": "bob"}`. -/
theorem StrFilter_String (field op value : String) :
    (StrFilter field op value).String
        = "\"" ++ field ++ "\": \x7b\"" ++ op ++ "\": \"" ++ value ++ "\"\x7d" ∧
    (StrFilter field op value).String.data
        = ['"'] ++ field.data ++ ['"', ':', ' ', '\x7b', '"'] ++ op.data
            ++ ['"', ':', ' ', '"'] ++ value.data ++ ['"', '\x7d'] ∧
    (StrFilter "name" "$eq" "bob").String = "\"name\": \x7b\"$eq\": \"bob\"\x7d" := by
  refine ⟨rfl, ?_, by decide⟩
  simp [StrFilter, FieldFilter.String, StringFilter.String, List.append_assoc]

/-! ## Executing a request -/

theorem Do_of_req (env : Env) (h : HTTPRequest) (req : Request) (hreq : h.Req = some req) :
    h.Do env
      = .ok ({ h with Req := some (sentRequest env h req) }, sentRequest env h req,
             classify (env.RoundTrip (sentRequest env h req))) := by
  have hs : (match h.Params with
      | some params =>
        if params.length > 0 then
          { req with URL := { req.URL with RawQuery := env.Encode params } }
        else req
      | none => req) = sentRequest env h req := rfl
  simp only [HTTPRequest.Do, hreq, hs]
  cases env.RoundTrip (sentRequest env h req) with
  | error e => rfl
  | ok resp =>
    by_cases h200 : resp.StatusCode = 200
    · simp [classify, h200]
    · by_cases h304 : resp.StatusCode = 304
      · simp [classify, h304]
      · simp [classify, h200, h304]

/-- C13: `HTTPRequest.Do` on an initialized request hands the request to the
transport and classifies the outcome: status 200 gives (body, headers, read
error); status 304 gives (nil, headers, nil); any other status `c` gives
(nil, nil, the error `API request failed with code c`); a transport error
`e` gives (nil, nil, `e`). -/
theorem Do_classifies (env : Env) (h : HTTPRequest) (req : Request)
    (hreq : h.Req = some req) :
    ∃ h' sent res, h.Do env = .ok (h', sent, res) ∧ sent = sentRequest env h req ∧
      (∀ e, env.RoundTrip sent = .error e →
        res = { body := none, headers := none, err := some e }) ∧
      (∀ resp, env.RoundTrip sent = .ok resp → resp.StatusCode = 200 →
        res = { body := some resp.Body, headers := some resp.Header, err := resp.ReadErr }) ∧
      (∀ resp, env.RoundTrip sent = .ok resp → resp.StatusCode = 304 →
        res = { body := none, headers := some resp.Header, err := none }) ∧
      (∀ resp, env.RoundTrip sent = .ok resp → resp.StatusCode ≠ 200 →
        resp.StatusCode ≠ 304 →
        res = { body := none, headers := none,
                err := some ("API request failed with code " ++ fmtInt resp.StatusCode) }) := by
  refine ⟨_, _, _, Do_of_req env h req hreq, rfl, ?_, ?_, ?_, ?_⟩
  · intro e he
    rw [he]; rfl
  · intro resp hr h200
    rw [hr]; simp [classify, h200]
  · intro resp hr h304
    rw [hr]; simp [classify, h304]
  · intro resp hr h200 h304
    rw [hr]; simp [classify, h200, h304]

/-- A request with status 500 gives no body, no headers and the error
`API request failed with code 500`. -/
theorem Do_classifies_witness :
    ∃ h' sent res,
      HTTPRequest.Do (demoEnv (statusResponse 500) 0 0)
          { Method := "GET", URL := "http://host:80/p/c", Payload := none, Query := [],
            Req := some { Method := "GET", URL := { Raw := "http://host:80/p/c", RawQuery := "" },
                          Header := [], Body := none },
            Params := some [] }
        = .ok (h', sent, res) ∧
      res = { body := none, headers := none, err := some "API request failed with code 500" } := by
  obtain ⟨h', sent, res, hdo, hsent, _, _, _, hother⟩ :=
    Do_classifies (demoEnv (statusResponse 500) 0 0)
      { Method := "GET", URL := "http://host:80/p/c", Payload := none, Query := [],
        Req := some { Method := "GET", URL := { Raw := "http://host:80/p/c", RawQuery := "" },
                      Header := [], Body := none },
        Params := some [] }
      { Method := "GET", URL := { Raw := "http://host:80/p/c", RawQuery := "" },
        Header := [], Body := none } rfl
  exact ⟨h', sent, res, hdo,
    hother { StatusCode := 500, Header := [], Body := [], ReadErr := none } rfl
      (by decide) (by decide)⟩

/-! ## Materializing a request -/

theorem Get_Initialize_of_built (env : Env) (g : Get) (proto host property bearer : String)
    (port : Int) (req : Request)
    (hbuilt : env.NewRequest "GET" (getURL g proto host property port) none = .ok req) :
    g.Initialize env proto host property bearer port
      = .ok ({ g with HTTPRequest := some {
                  Method := "GET", URL := getURL g proto host property port, Payload := none,
                  Query := [],
                  Req := some { req with Header := getHeader req.Header g.ETag bearer },
                  Params := some (getParams env g (env.ParseQuery req.URL.RawQuery)) } },
             none) := by
  unfold Get.Initialize
  have hinit : HTTPRequest.Initialize env
      (if g.Metadata then
        { Method := "GET", URL := buildUrl proto host property g.Collection port ++ "/count",
          Payload := none, Query := [], Req := none, Params := none }
      else
        { Method := "GET", URL := buildUrl proto host property g.Collection port,
          Payload := none, Query := [], Req := none, Params := none })
      = .ok ({ Method := "GET", URL := getURL g proto host property port, Payload := none,
               Query := [], Req := some req,
               Params := some (env.ParseQuery req.URL.RawQuery) }, none) := by
    unfold getURL at hbuilt ⊢
    cases hm : g.Metadata <;> simp only [hm, Bool.false_eq_true, ↓reduceIte] at hbuilt ⊢ <;>
      exact Initialize_of_built env _ req hbuilt
  simp only [bind, Except.bind, pure, Except.pure, hinit, Option.isSome,
    HTTPRequest.SetHeader, HTTPRequest.SetParam, FormatBool, Bool.false_eq_true, ↓reduceIte]
  unfold getParams getHeader
  cases g.SkipCache <;> cases g.sort <;> cases g.Compose <;> cases g.ComposeAll <;>
    cases g.Query <;> cases g.Fields <;>
    by_cases hl : g.ComposeLevel > 0 <;>
    simp [getParams, getHeader, hl, FormatBool]

theorem lookup_filter_ne (m : Values) (k k' : String) (h : k' ≠ k) :
    (m.filter (fun kv => kv.1 != k)).lookup k' = m.lookup k' := by
  induction m with
  | nil => rfl
  | cons kv rest ih =>
    obtain ⟨a, vs⟩ := kv
    by_cases hak : a = k
    · subst hak
      have hk : (k' == a) = false := by simpa using h
      simp [List.filter, List.lookup, hk, ih]
    · have hne : (a != k) = true := by simpa using hak
      simp only [List.filter, hne, List.lookup]
      rw [ih]

theorem lookup_Set_self (m : Values) (k v : String) : (m.Set k v).lookup k = some [v] := by
  simp [Values.Set, List.lookup]

theorem lookup_Set_of_ne (m : Values) (k v k' : String) (h : k' ≠ k) :
    (m.Set k v).lookup k' = m.lookup k' := by
  have hk : (k' == k) = false := by simpa using h
  simp only [Values.Set, List.lookup, hk]
  exact lookup_filter_ne m k k' h

theorem Get_Set_self (m : Values) (k v : String) : (m.Set k v).Get k = v := by
  simp [Values.Get, lookup_Set_self]

theorem Get_Set_of_ne (m : Values) (k v k' : String) (h : k' ≠ k) :
    (m.Set k v).Get k' = m.Get k' := by
  simp [Values.Get, lookup_Set_of_ne m k v k' h]

theorem getParams_compose (env : Env) (g : Get) (init : Values) :
    (getParams env g init).Get "compose"
      = if g.ComposeAll then "all"
        else if g.ComposeLevel > 0 then FormatUint g.ComposeLevel
        else if g.Compose then "true"
        else init.Get "compose" := by
  unfold getParams
  cases g.SkipCache <;> cases g.sort <;> cases g.Compose <;> cases g.ComposeAll <;>
    cases g.Query <;> cases g.Fields <;>
    by_cases hl : g.ComposeLevel > 0 <;>
    simp [hl, Get_Set_self, Get_Set_of_ne]

theorem getParams_page_count_filter (env : Env) (g : Get) (init : Values) :
    (getParams env g init).Get "page" = FormatUint g.Page ∧
    (getParams env g init).Get "count" = FormatUint g.Limit ∧
    ∀ q, g.Query = some q → (getParams env g init).Get "filter" = q.ToQueryString := by
  unfold getParams
  cases g.SkipCache <;> cases g.sort <;> cases g.Compose <;> cases g.ComposeAll <;>
    cases g.Query <;> cases g.Fields <;>
    by_cases hl : g.ComposeLevel > 0 <;>
    simp [hl, Get_Set_self, Get_Set_of_ne]

theorem getHeader_lookup (header : Header) (etag bearer : String) :
    (getHeader header etag bearer).lookup "If-None-Match" = some [etag] ∧
    (getHeader header etag bearer).Get "Authorization" = "Bearer " ++ bearer ∧
    (getHeader header etag bearer).Get "Content-Type" = "application/json" := by
  simp [getHeader, Get_Set_self, Get_Set_of_ne, lookup_Set_self, lookup_Set_of_ne]

theorem itemHeader_Get (header : Header) (bearer : String) :
    (itemHeader header bearer).Get "Authorization" = "Bearer " ++ bearer ∧
    (itemHeader header bearer).Get "Content-Type" = "application/json" := by
  simp [itemHeader, Get_Set_self, Get_Set_of_ne]

theorem Post_Initialize_of_built (env : Env) (p : Post) (proto host property bearer : String)
    (port : Int) (req : Request)
    (hbuilt : env.NewRequest "POST" (itemURL p.ID p.Collection proto host property port)
      (some p.Body) = .ok req) :
    p.Initialize env proto host property bearer port
      = .ok ({ p with HTTPRequest := some {
                  Method := "POST", URL := itemURL p.ID p.Collection proto host property port,
                  Payload := some p.Body, Query := [],
                  Req := some { req with Header := itemHeader req.Header bearer },
                  Params := some (env.ParseQuery req.URL.RawQuery) } },
             none) := by
  unfold Post.Initialize
  have hinit : HTTPRequest.Initialize env
      (if p.ID ≠ "" then
        { Method := "POST",
          URL := buildUrl proto host property p.Collection port ++ ("/" ++ p.ID),
          Payload := some p.Body, Query := [], Req := none, Params := none }
      else
        { Method := "POST", URL := buildUrl proto host property p.Collection port,
          Payload := some p.Body, Query := [], Req := none, Params := none })
      = .ok ({ Method := "POST", URL := itemURL p.ID p.Collection proto host property port,
               Payload := some p.Body, Query := [], Req := some req,
               Params := some (env.ParseQuery req.URL.RawQuery) }, none) := by
    unfold itemURL at hbuilt ⊢
    by_cases hid : p.ID = "" <;>
      simp only [hid, ne_eq, not_true_eq_false, not_false_eq_true, ↓reduceIte] at hbuilt ⊢ <;>
      exact Initialize_of_built env _ req hbuilt
  simp only [bind, Except.bind, pure, Except.pure, hinit, Option.isSome,
    HTTPRequest.SetHeader, Bool.false_eq_true, ↓reduceIte, itemHeader]

theorem Put_Initialize_of_built (env : Env) (p : Put) (proto host property bearer : String)
    (port : Int) (req : Request)
    (hbuilt : env.NewRequest "PUT" (itemURL p.ID p.Collection proto host property port)
      (some p.Body) = .ok req) :
    p.Initialize env proto host property bearer port
      = .ok ({ p with HTTPRequest := some {
                  Method := "PUT", URL := itemURL p.ID p.Collection proto host property port,
                  Payload := some p.Body, Query := [],
                  Req := some { req with Header := itemHeader req.Header bearer },
                  Params := some (env.ParseQuery req.URL.RawQuery) } },
             none) := by
  unfold Put.Initialize
  have hinit : HTTPRequest.Initialize env
      (if p.ID ≠ "" then
        { Method := "PUT",
          URL := buildUrl proto host property p.Collection port ++ ("/" ++ p.ID),
          Payload := some p.Body, Query := [], Req := none, Params := none }
      else
        { Method := "PUT", URL := buildUrl proto host property p.Collection port,
          Payload := some p.Body, Query := [], Req := none, Params := none })
      = .ok ({ Method := "PUT", URL := itemURL p.ID p.Collection proto host property port,
               Payload := some p.Body, Query := [], Req := some req,
               Params := some (env.ParseQuery req.URL.RawQuery) }, none) := by
    unfold itemURL at hbuilt ⊢
    by_cases hid : p.ID = "" <;>
      simp only [hid, ne_eq, not_true_eq_false, not_false_eq_true, ↓reduceIte] at hbuilt ⊢ <;>
      exact Initialize_of_built env _ req hbuilt
  simp only [bind, Except.bind, pure, Except.pure, hinit, Option.isSome,
    HTTPRequest.SetHeader, Bool.false_eq_true, ↓reduceIte, itemHeader]

theorem Delete_Initialize_of_built (env : Env) (d : Delete)
    (proto host property bearer : String) (port : Int) (req : Request)
    (hbuilt : env.NewRequest "DELETE"
      (proto ++ "://" ++ host ++ ":" ++ fmtInt port ++ "/" ++ property ++ "/"
        ++ d.Collection ++ "/" ++ d.ID) none = .ok req) :
    d.Initialize env proto host property bearer port
      = .ok ({ d with HTTPRequest := some {
                  Method := "DELETE",
                  URL := proto ++ "://" ++ host ++ ":" ++ fmtInt port ++ "/" ++ property ++ "/"
                    ++ d.Collection ++ "/" ++ d.ID,
                  Payload := none, Query := [],
                  Req := some { req with Header := itemHeader req.Header bearer },
                  Params := some (env.ParseQuery req.URL.RawQuery) } },
             none) := by
  unfold Delete.Initialize
  dsimp only
  rw [Initialize_of_built env _ req hbuilt]
  simp only [bind, Except.bind, pure, Except.pure, Option.isSome,
    HTTPRequest.SetHeader, Bool.false_eq_true, ↓reduceIte, itemHeader]

/-- C14, refuted: with `ComposeAll` set and `ComposeLevel` = 3 the `compose`
parameter after `Initialize` is `all`, not the decimal 3. -/
theorem Get_Initialize_compose_all_over_level :
    (((Get.Initialize (demoEnv (statusResponse 200) 0 0)
          { demoGet with ComposeAll := true, ComposeLevel := 3 }
          "http" "host" "p" "t" 80).toOption.bind (fun r => r.1.HTTPRequest)).bind
        (fun h => h.Params)).map (fun ps => ps.Get "compose") = some "all" ∧
    FormatUint 3 ≠ "all" := by
  decide

/-- C14, amended: the compose controls of a Get are applied in the order
Compose, then ComposeLevel, then ComposeAll, the last one set winning: after
a successful `Initialize` the `compose` parameter is `all` when `ComposeAll`
is set, else the decimal `ComposeLevel` when it is above 0, else `true` when
`Compose` is set, else what the URL had. -/
theorem Get_Initialize_compose (env : Env) (g : Get) (proto host property bearer : String)
    (port : Int) (req : Request)
    (hbuilt : env.NewRequest "GET" (getURL g proto host property port) none = .ok req) :
    ∃ g' h ps, g.Initialize env proto host property bearer port = .ok (g', none) ∧
      g'.HTTPRequest = some h ∧ h.Params = some ps ∧
      ps.Get "compose"
        = if g.ComposeAll then "all"
          else if g.ComposeLevel > 0 then FormatUint g.ComposeLevel
          else if g.Compose then "true"
          else (env.ParseQuery req.URL.RawQuery).Get "compose" :=
  ⟨_, _, _, Get_Initialize_of_built env g proto host property bearer port req hbuilt, rfl, rfl,
    getParams_compose env g _⟩

/-- With `Compose` set and `ComposeLevel` = 3, and `ComposeAll` not set, the
parameter is the decimal 3. -/
theorem Get_Initialize_compose_witness :
    ∃ g' h ps,
      Get.Initialize (demoEnv (statusResponse 200) 0 0)
          { demoGet with Compose := true, ComposeLevel := 3 } "http" "host" "p" "t" 80
        = .ok (g', none) ∧
      g'.HTTPRequest = some h ∧ h.Params = some ps ∧ ps.Get "compose" = "3" :=
  Get_Initialize_compose (demoEnv (statusResponse 200) 0 0)
    { demoGet with Compose := true, ComposeLevel := 3 } "http" "host" "p" "t" 80
    (demoRequest "GET" "http://host:80/p/c" none) rfl

/-- C15, refuted: with `ETag` = "" the request's header set after
`Initialize` holds an `If-None-Match` entry, with the empty value. -/
theorem Get_Initialize_empty_etag_header :
    (((Get.Initialize (demoEnv (statusResponse 200) 0 0) { demoGet with ETag := "" }
          "http" "host" "p" "t" 80).toOption.bind (fun r => r.1.HTTPRequest)).bind
        (fun h => h.Req)).map (fun r => r.Header.lookup "If-None-Match") = some (some [""]) := by
  decide

/-- C15, amended: a List request carries the `If-None-Match` header whatever
the ETag: after a successful `Initialize` the request's header set holds the
entry `If-None-Match` with the one value `ETag`, the empty value when `ETag`
is "". -/
theorem Get_Initialize_if_none_match (env : Env) (g : Get)
    (proto host property bearer : String) (port : Int) (req : Request)
    (hbuilt : env.NewRequest "GET" (getURL g proto host property port) none = .ok req) :
    ∃ g' h r, g.Initialize env proto host property bearer port = .ok (g', none) ∧
      g'.HTTPRequest = some h ∧ h.Req = some r ∧
      r.Header.lookup "If-None-Match" = some [g.ETag] :=
  ⟨_, _, _, Get_Initialize_of_built env g proto host property bearer port req hbuilt, rfl, rfl,
    (getHeader_lookup req.Header g.ETag bearer).1⟩

/-- With the ETag `v1` the header set holds `If-None-Match: v1`. -/
theorem Get_Initialize_if_none_match_witness :
    ∃ g' h r,
      Get.Initialize (demoEnv (statusResponse 200) 0 0) { demoGet with ETag := "v1" }
          "http" "host" "p" "t" 80 = .ok (g', none) ∧
      g'.HTTPRequest = some h ∧ h.Req = some r ∧
      r.Header.lookup "If-None-Match" = some ["v1"] :=
  Get_Initialize_if_none_match (demoEnv (statusResponse 200) 0 0) { demoGet with ETag := "v1" }
    "http" "host" "p" "t" 80 (demoRequest "GET" "http://host:80/p/c" none) rfl

/-- C16: for every Get the URL `Initialize` builds is
`proto://host:port/property/collection/count` with `Metadata` set and
`proto://host:port/property/collection` without; either way the `page` and
`count` parameters are attached, and the `filter` parameter when `Query` is
set. -/
theorem Get_Initialize_url (env : Env) (g : Get) (proto host property bearer : String)
    (port : Int) (req : Request)
    (hbuilt : env.NewRequest "GET"
      (if g.Metadata then
        proto ++ "://" ++ host ++ ":" ++ fmtInt port ++ "/" ++ property ++ "/" ++ g.Collection
          ++ "/count"
      else
        proto ++ "://" ++ host ++ ":" ++ fmtInt port ++ "/" ++ property ++ "/" ++ g.Collection)
      none = .ok req) :
    ∃ g' h ps, g.Initialize env proto host property bearer port = .ok (g', none) ∧
      g'.HTTPRequest = some h ∧
      h.URL = (if g.Metadata then
          proto ++ "://" ++ host ++ ":" ++ fmtInt port ++ "/" ++ property ++ "/" ++ g.Collection
            ++ "/count"
        else
          proto ++ "://" ++ host ++ ":" ++ fmtInt port ++ "/" ++ property ++ "/"
            ++ g.Collection) ∧
      h.Params = some ps ∧
      ps.Get "page" = FormatUint g.Page ∧ ps.Get "count" = FormatUint g.Limit ∧
      ∀ q, g.Query = some q → ps.Get "filter" = q.ToQueryString :=
  ⟨_, _, _, Get_Initialize_of_built env g proto host property bearer port req hbuilt, rfl, rfl,
    rfl, getParams_page_count_filter env g _⟩

/-- A count query on the collection `c` with an empty Filter Set. -/
theorem Get_Initialize_url_witness :
    ∃ g' h ps,
      Get.Initialize (demoEnv (statusResponse 200) 0 0)
          { demoGet with Metadata := true, Query := some (NewFilters []) }
          "http" "host" "p" "t" 80 = .ok (g', none) ∧
      g'.HTTPRequest = some h ∧
      h.URL = "http://host:80/p/c/count" ∧
      h.Params = some ps ∧
      ps.Get "page" = "1" ∧ ps.Get "count" = "10" ∧
      ∀ q, some (NewFilters []) = some q → ps.Get "filter" = q.ToQueryString :=
  Get_Initialize_url (demoEnv (statusResponse 200) 0 0)
    { demoGet with Metadata := true, Query := some (NewFilters []) }
    "http" "host" "p" "t" 80 (demoRequest "GET" "http://host:80/p/c/count" none) rfl

/-- C18: for each of Get, Post, Put and Delete and every bearer token `t`,
after a successful `Initialize` the materialized request has the header
`Authorization: Bearer t` and the header `Content-Type: application/json`,
and its method is GET, POST, PUT and DELETE; `http.NewRequest` gives a
request the method it was asked for. -/
theorem Initialize_materializes (env : Env) (g : Get) (p : Post) (u : Put) (d : Delete)
    (proto host property t : String) (port : Int) (rg rp ru rd : Request)
    (hg : env.NewRequest "GET" (getURL g proto host property port) none = .ok rg)
    (hgm : rg.Method = "GET")
    (hp : env.NewRequest "POST" (itemURL p.ID p.Collection proto host property port)
      (some p.Body) = .ok rp)
    (hpm : rp.Method = "POST")
    (hu : env.NewRequest "PUT" (itemURL u.ID u.Collection proto host property port)
      (some u.Body) = .ok ru)
    (hum : ru.Method = "PUT")
    (hd : env.NewRequest "DELETE"
      (proto ++ "://" ++ host ++ ":" ++ fmtInt port ++ "/" ++ property ++ "/"
        ++ d.Collection ++ "/" ++ d.ID) none = .ok rd)
    (hdm : rd.Method = "DELETE") :
    (∃ g', g.Initialize env proto host property t port = .ok (g', none) ∧
      Materialized g'.HTTPRequest "GET" t) ∧
    (∃ p', p.Initialize env proto host property t port = .ok (p', none) ∧
      Materialized p'.HTTPRequest "POST" t) ∧
    (∃ u', u.Initialize env proto host property t port = .ok (u', none) ∧
      Materialized u'.HTTPRequest "PUT" t) ∧
    (∃ d', d.Initialize env proto host property t port = .ok (d', none) ∧
      Materialized d'.HTTPRequest "DELETE" t) := by
  refine ⟨⟨_, Get_Initialize_of_built env g proto host property t port rg hg, ?_⟩,
    ⟨_, Post_Initialize_of_built env p proto host property t port rp hp, ?_⟩,
    ⟨_, Put_Initialize_of_built env u proto host property t port ru hu, ?_⟩,
    ⟨_, Delete_Initialize_of_built env d proto host property t port rd hd, ?_⟩⟩
  · exact ⟨_, _, rfl, rfl, rfl, hgm, (getHeader_lookup rg.Header g.ETag t).2⟩
  · exact ⟨_, _, rfl, rfl, rfl, hpm, itemHeader_Get rp.Header t⟩
  · exact ⟨_, _, rfl, rfl, rfl, hum, itemHeader_Get ru.Header t⟩
  · exact ⟨_, _, rfl, rfl, rfl, hdm, itemHeader_Get rd.Header t⟩

/-- The four requests on the collection `c` and the item `7`, with the
token `t`. -/
theorem Initialize_materializes_witness :
    (∃ g', Get.Initialize (demoEnv (statusResponse 200) 0 0) demoGet "http" "host" "p" "t" 80
        = .ok (g', none) ∧ Materialized g'.HTTPRequest "GET" "t") ∧
    (∃ p', Post.Initialize (demoEnv (statusResponse 200) 0 0)
        { ID := "", Collection := "c", Body := [], HTTPRequest := none } "http" "host" "p" "t" 80
        = .ok (p', none) ∧ Materialized p'.HTTPRequest "POST" "t") ∧
    (∃ u', Put.Initialize (demoEnv (statusResponse 200) 0 0)
        { ID := "7", Collection := "c", Body := [], HTTPRequest := none } "http" "host" "p" "t" 80
        = .ok (u', none) ∧ Materialized u'.HTTPRequest "PUT" "t") ∧
    (∃ d', Delete.Initialize (demoEnv (statusResponse 200) 0 0)
        { ID := "7", Collection := "c", HTTPRequest := none } "http" "host" "p" "t" 80
        = .ok (d', none) ∧ Materialized d'.HTTPRequest "DELETE" "t") :=
  Initialize_materializes (demoEnv (statusResponse 200) 0 0) demoGet
    { ID := "", Collection := "c", Body := [], HTTPRequest := none }
    { ID := "7", Collection := "c", Body := [], HTTPRequest := none }
    { ID := "7", Collection := "c", HTTPRequest := none }
    "http" "host" "p" "t" 80
    (demoRequest "GET" "http://host:80/p/c" none)
    (demoRequest "POST" "http://host:80/p/c" (some []))
    (demoRequest "PUT" "http://host:80/p/c/7" (some []))
    (demoRequest "DELETE" "http://host:80/p/c/7" none)
    rfl rfl rfl rfl rfl rfl rfl rfl

/-! ## Sort -/

theorem lookup_cons_eq {β : Type} (a f : String) (b : β) (rest : List (String × β))
    (h : f = a) : ((a, b) :: rest).lookup f = some b := by
  simp [List.lookup, h]

theorem lookup_cons_ne {β : Type} (a f : String) (b : β) (rest : List (String × β))
    (h : f ≠ a) : ((a, b) :: rest).lookup f = rest.lookup f := by
  have hfa : (f == a) = false := by simpa using h
  simp [List.lookup, hfa]

theorem lookup_map_replace (m : List (String × Int)) (k f : String) (v : Int) :
    (m.map (fun kv => if kv.1 == k then (k, v) else kv)).lookup f
      = if f = k then (if m.any (fun kv => kv.1 == k) then some v else none)
        else m.lookup f := by
  induction m with
  | nil => by_cases hf : f = k <;> simp [hf]
  | cons kv rest ih =>
    obtain ⟨a, b⟩ := kv
    by_cases hak : a = k
    · have hhead : (if (a == k) = true then (k, v) else (a, b)) = (k, v) := by simp [hak]
      simp only [List.map_cons, hhead]
      by_cases hf : f = k
      · rw [lookup_cons_eq k f v _ hf]
        simp [hf, hak]
      · rw [lookup_cons_ne k f v _ hf, ih, if_neg hf, if_neg hf,
          lookup_cons_ne a f b _ (by rw [hak]; exact hf)]
    · have hhead : (if (a == k) = true then (k, v) else (a, b)) = (a, b) := by simp [hak]
      have hak' : (a == k) = false := by simpa using hak
      simp only [List.map_cons, hhead]
      by_cases hf : f = k
      · have hfa : f ≠ a := by rw [hf]; exact fun h => hak h.symm
        rw [lookup_cons_ne a f b _ hfa, ih, if_pos hf, if_pos hf]
        simp only [List.any_cons, hak', Bool.false_or]
      · rw [if_neg hf]
        by_cases hfa : f = a
        · rw [lookup_cons_eq a f b _ hfa, lookup_cons_eq a f b _ hfa]
        · rw [lookup_cons_ne a f b _ hfa, lookup_cons_ne a f b _ hfa, ih, if_neg hf]

theorem lookup_append_entry (m : List (String × Int)) (k f : String) (v : Int)
    (hk : m.any (fun kv => kv.1 == k) = false) :
    (m ++ [(k, v)]).lookup f = if f = k then some v else m.lookup f := by
  induction m with
  | nil =>
    by_cases hf : f = k
    · rw [List.nil_append, lookup_cons_eq k f v _ hf, if_pos hf]
    · rw [List.nil_append, lookup_cons_ne k f v _ hf, if_neg hf]
  | cons kv rest ih =>
    obtain ⟨a, b⟩ := kv
    simp only [List.any_cons, Bool.or_eq_false_iff, beq_eq_false_iff_ne, ne_eq] at hk
    have hrest := ih hk.2
    by_cases hf : f = k
    · have hfa : f ≠ a := by rw [hf]; exact fun h => hk.1 h.symm
      rw [List.cons_append, lookup_cons_ne a f b _ hfa, hrest, if_pos hf, if_pos hf]
    · by_cases hfa : f = a
      · rw [List.cons_append, lookup_cons_eq a f b _ hfa, if_neg hf,
          lookup_cons_eq a f b _ hfa]
      · rw [List.cons_append, lookup_cons_ne a f b _ hfa, hrest, if_neg hf, if_neg hf,
          lookup_cons_ne a f b _ hfa]

theorem lookup_mapSet (m : List (String × Int)) (k f : String) (v : Int) :
    (mapSet m k v).lookup f = if f = k then some v else m.lookup f := by
  unfold mapSet
  by_cases hany : m.any (fun kv => kv.1 == k) = true
  · rw [if_pos hany, lookup_map_replace, if_pos hany]
  · rw [if_neg hany]
    exact lookup_append_entry m k f v (Bool.eq_false_iff.mpr hany)

theorem keys_mapSet_nodup (m : List (String × Int)) (k : String) (v : Int)
    (hm : (m.map Prod.fst).Nodup) : ((mapSet m k v).map Prod.fst).Nodup := by
  unfold mapSet
  by_cases hany : m.any (fun kv => kv.1 == k) = true
  · rw [if_pos hany]
    have hkeys : (m.map (fun kv => if kv.1 == k then (k, v) else kv)).map Prod.fst
        = m.map Prod.fst := by
      rw [List.map_map]
      apply List.map_congr_left
      intro kv _
      by_cases h : kv.1 = k <;> simp [h]
    rw [hkeys]
    exact hm
  · rw [if_neg hany]
    simp only [List.map_append, List.map_cons, List.map_nil]
    refine List.Nodup.append hm (List.nodup_singleton k) ?_
    intro x hx hx'
    simp only [List.mem_singleton] at hx'
    subst hx'
    apply hany
    obtain ⟨kv, hkv, rfl⟩ := List.mem_map.mp hx
    exact List.any_eq_true.mpr ⟨kv, hkv, by simp⟩

theorem mem_mapSet (m : List (String × Int)) (k : String) (v : Int) (kv : String × Int)
    (h : kv ∈ mapSet m k v) : kv ∈ m ∨ kv = (k, v) := by
  unfold mapSet at h
  by_cases hany : m.any (fun kv => kv.1 == k) = true
  · rw [if_pos hany] at h
    obtain ⟨x, hx, rfl⟩ := List.mem_map.mp h
    by_cases hxk : (x.1 == k) = true
    · right; simp [hxk]
    · left; simpa [hxk] using hx
  · rw [if_neg hany] at h
    rcases List.mem_append.mp h with h | h
    · exact Or.inl h
    · exact Or.inr (by simpa using h)

theorem sort_invariant (calls : List SortCall) (s : GoSort)
    (hdir : ∀ kv ∈ s.Value, kv.2 = 1 ∨ kv.2 = -1) (hkeys : (s.Value.map Prod.fst).Nodup) :
    (∀ kv ∈ (calls.foldl SortCall.apply s).Value, kv.2 = 1 ∨ kv.2 = -1) ∧
    ((calls.foldl SortCall.apply s).Value.map Prod.fst).Nodup := by
  induction calls generalizing s with
  | nil => exact ⟨hdir, hkeys⟩
  | cons c rest ih =>
    apply ih
    · intro kv hkv
      cases c with
      | asc field =>
        rcases mem_mapSet _ _ _ _ hkv with h | h
        · exact hdir kv h
        · left; rw [h]
      | desc field =>
        rcases mem_mapSet _ _ _ _ hkv with h | h
        · exact hdir kv h
        · right; rw [h]
    · cases c <;> exact keys_mapSet_nodup _ _ _ hkeys

theorem sort_lookup (calls : List SortCall) (s : GoSort) (f : String) :
    (calls.foldl SortCall.apply s).Value.lookup f
      = calls.foldl (fun last call => if call.field = f then some call.direction else last)
          (s.Value.lookup f) := by
  induction calls generalizing s with
  | nil => rfl
  | cons c rest ih =>
    simp only [List.foldl_cons]
    rw [ih]
    congr 1
    cases c with
    | asc field =>
      simp only [SortCall.apply, GoSort.Asc, SortCall.field, SortCall.direction, lookup_mapSet]
      by_cases h : f = field
      · subst h; simp
      · have h' : ¬ field = f := fun e => h e.symm
        simp [h, h']
    | desc field =>
      simp only [SortCall.apply, GoSort.Desc, SortCall.field, SortCall.direction, lookup_mapSet]
      by_cases h : f = field
      · subst h; simp
      · have h' : ¬ field = f := fun e => h e.symm
        simp [h, h']

theorem Sort_String_eq (env : Env) (s : GoSort)
    (hdir : ∀ kv ∈ env.Range s.Value, kv.2 = 1 ∨ kv.2 = -1) :
    s.String env
      = "\x7b" ++ String.intercalate "," ((env.Range s.Value).map sortEntry) ++ "\x7d" := by
  unfold GoSort.String
  simp only
  rw [foldl_append_singleton, Join_eq, List.nil_append, List.filter_eq_self.mpr,
    strings_Join_eq_intercalate]
  · congr 2
    congr 1
    apply List.map_congr_left
    intro kv hkv
    rcases hdir kv hkv with h | h <;> rw [sortEntry, h] <;> rfl
  · intro x hx
    obtain ⟨kv, _, rfl⟩ := List.mem_map.mp hx
    simp only [String.append_assoc, decide_eq_true_eq]
    exact len_quote_append _

/-- C17: for the Sort obtained from `NewSort()` by any calls of `Asc` and
`Desc`, every stored direction is 1 or −1, every field has one entry, that
of the last call on it, and `String()` is `{`, the entries joined by commas,
`}`, one entry `"field": 1` or `"field": -1` for every stored field, none
left out, in the order the map is ranged over; with no call it is `{}`. -/
theorem Sort_String (env : Env) (calls : List SortCall)
    (hrange : (env.Range (sortAfter calls).Value).Perm (sortAfter calls).Value) :
    (∀ kv ∈ (sortAfter calls).Value, kv.2 = 1 ∨ kv.2 = -1) ∧
    ((sortAfter calls).Value.map Prod.fst).Nodup ∧
    (∀ f, (sortAfter calls).Value.lookup f = lastDirection calls f) ∧
    (∃ order : List (String × Int), order.Perm (sortAfter calls).Value ∧
      (sortAfter calls).String env
        = "\x7b" ++ String.intercalate "," (order.map sortEntry) ++ "\x7d") ∧
    (calls = [] → (sortAfter calls).String env = "\x7b\x7d") := by
  have hinv := sort_invariant calls NewSort (by intro kv h; cases h) (by simp [NewSort])
  have hstr := Sort_String_eq env (sortAfter calls)
    (fun kv hkv => hinv.1 kv (hrange.mem_iff.mp hkv))
  refine ⟨hinv.1, hinv.2, fun f => sort_lookup calls NewSort f, ⟨_, hrange, hstr⟩, ?_⟩
  intro hc
  subst hc
  rw [hstr]
  have hnil : env.Range (sortAfter []).Value = [] := List.Perm.eq_nil hrange
  rw [hnil]
  rfl

/-- The calls Asc a, Desc b, Desc a leave `a` descending and `b` descending;
ranged over in the stored order they print as `{"a": -1,"b": -1}`. -/
theorem Sort_String_witness :
    (∃ order : List (String × Int),
      order.Perm (sortAfter [.asc "a", .desc "b", .desc "a"]).Value ∧
      (sortAfter [.asc "a", .desc "b", .desc "a"]).String (demoEnv (statusResponse 200) 0 0)
        = "\x7b" ++ String.intercalate "," (order.map sortEntry) ++ "\x7d") ∧
    (sortAfter [.asc "a", .desc "b", .desc "a"]).String (demoEnv (statusResponse 200) 0 0)
      = "\x7b\"a\": -1,\"b\": -1\x7d" :=
  ⟨(Sort_String (demoEnv (statusResponse 200) 0 0) [.asc "a", .desc "b", .desc "a"]
      (List.Perm.refl _)).2.2.2.1, by decide⟩

/-! ## The client -/

/-- C19: when the request's `Do` returns a body `b` and no error,
`Instance.Do` returns `b`, the headers and what decoding `b` into the
caller's target gives (nil on success); when it returns an error or no body
(a 304), `Instance.Do` returns no body, the headers and that error, and
`json.Unmarshal` is not run. -/
theorem Instance_Do_decodes (env : Env) (i : Instance) (r r₁ r₂ : APIRequest)
    (target : Target) (w w' : Wallet) (tok : String) (sent : List Request) (req : Request)
    (out : DoResult)
    (hw : i.wallet = some w)
    (hbearer : w.GetBearer env = .ok (w', tok, sent))
    (hinit : r.Initialize env i.Proto i.Hostname i.Property tok i.Port = .ok (r₁, none))
    (hdo : r₁.Do env = .ok (r₂, req, out)) :
    ∃ res, i.Do env r target = .ok res ∧ res.headers = out.headers ∧
      (∀ b, out.body = some b → out.err = none →
        res.body = some b ∧ res.err = target b ∧ res.decoded = [b]) ∧
      ((out.err ≠ none ∨ out.body = none) →
        res.body = none ∧ res.err = out.err ∧ res.decoded = []) := by
  simp only [Instance.Do, hw, bind, Except.bind, pure, Except.pure, hbearer, hinit, hdo,
    Option.isSome, Bool.false_eq_true, ↓reduceIte]
  cases herr : out.err with
  | some e =>
    refine ⟨_, rfl, rfl, ?_, ?_⟩
    · intro b _ h
      cases h
    · intro _
      exact ⟨rfl, rfl, rfl⟩
  | none =>
    cases hbody : out.body with
    | none =>
      refine ⟨_, rfl, rfl, ?_, ?_⟩
      · intro b h
        cases h
      · intro _
        exact ⟨rfl, rfl, rfl⟩
    | some b =>
      refine ⟨_, rfl, rfl, ?_, ?_⟩
      · intro b' h _
        cases h
        exact ⟨rfl, rfl, rfl⟩
      · intro h
        rcases h with h | h
        · exact absurd rfl h
        · cases h

/-- A List request answered 200 with a body the caller's target rejects:
the body is returned with the decode error. -/
theorem Instance_Do_decodes_witness :
    ∃ res,
      Instance.Do
          (demoEnv (okResponse "\x7b\"accessToken\":\"abc\",\"expiresIn\":120\x7d") 0 0)
          (New "http" "host" "p" "id" "s" 80) (.get demoGet)
          (fun _ => some "json: cannot unmarshal") = .ok res ∧
      res.body = some (bytesOf "\x7b\"accessToken\":\"abc\",\"expiresIn\":120\x7d") ∧
      res.err = some "json: cannot unmarshal" := by
  obtain ⟨res, hres, _, hbody, _⟩ :=
    Instance_Do_decodes
      (demoEnv (okResponse "\x7b\"accessToken\":\"abc\",\"expiresIn\":120\x7d") 0 0)
      (New "http" "host" "p" "id" "s" 80) (.get demoGet) _ _
      (fun _ => some "json: cannot unmarshal")
      (NewWallet "http" "host" "id" "s" 80) _ _ _ _ _ rfl rfl rfl rfl
  exact ⟨res, hres, (hbody _ rfl rfl).1, (hbody _ rfl rfl).2.1⟩

theorem NewBearerFromJSON_of_null (env : Env) (d : Bytes)
    (hnull : env.UnmarshalBearer d = .null) :
    NewBearerFromJSON env d = .error .nilDereference := by
  simp only [NewBearerFromJSON, hnull]

/-- C20, as the code has it: on the input `null`, which `json.Unmarshal`
accepts by setting the pointer `bearer` to nil, `NewBearerFromJSON` assigns
to `bearer.ExpirationDate` and panics; so does `Wallet.NewBearer` on a 200
response with the body `null`. -/
theorem NewBearerFromJSON_null_faults :
    NewBearerFromJSON (demoEnv (okResponse "null") 0 0) (bytesOf "null")
      = .error .nilDereference ∧
    Wallet.NewBearer (demoEnv (okResponse "null") 0 0) (NewWallet "http" "host" "id" "s" 80)
      = .error .nilDereference := by
  decide

end apiconnect
